import Mathlib

/-!
Verification development for the checkpointed synchronization engine and the
background task executor of the bilibili-my-favorite repository.

Shallow embedding: Python data records become Lean structures; the stateful
methods of SyncContext, OptimizedSyncService, TaskExecutor and TaskManager
become pure state-passing functions; timestamps are passed explicitly as a
Nat parameter; the external network fetch, the external cover downloader and
the sync run invoked by the sync task handler are parameters of the functions
that call them (they are external collaborators of the code under study).
-/

/-- Collection metadata record (the ProcessCollection TypedDict of
sync_context.py).  Only the fields the engine reads are kept: the stable id
(compared via str() in the source, hence injective) and the title. -/
structure ProcessCollection where
  id : Nat
  title : String
deriving DecidableEq, Repr

/-- One record of a deleted video, appended to stats.deleted_videos by
_mark_video_deleted of optimized_sync_service.py. -/
structure DeletedVideoInfo where
  bvid : String
  title : String
  uploader_name : String
  collection_title : String
  deleted_at : Nat
deriving DecidableEq, Repr

/-- The stats dictionary of SyncContext (SyncContextStats TypedDict). -/
structure SyncStats where
  collections_processed : Nat := 0
  videos_added : Nat := 0
  videos_updated : Nat := 0
  videos_deleted : Nat := 0
  videos_restored : Nat := 0
  covers_downloaded : Nat := 0
  errors : List String := []
  deleted_videos : List DeletedVideoInfo := []
  restored_videos : List String := []
deriving DecidableEq, Repr

/-- One entry of SyncContext.failed_collections: the failed_info dict built in
mark_collection_failed (collection, error message, failure timestamp). -/
structure FailedInfo where
  collection : ProcessCollection
  error : String
  failed_at : Nat
deriving DecidableEq, Repr

/-- The mutable state of SyncContext (sync_context.py): status string, the
four stage lists, the failed list, the in-progress cursor and the stats. -/
structure SyncCtx where
  status : String := "initializing"
  collections_to_process : List ProcessCollection := []
  fetched_collections : List ProcessCollection := []
  current_collection : Option ProcessCollection := none
  current_page : Nat := 1
  processed_collections : List ProcessCollection := []
  downloaded_collections : List ProcessCollection := []
  failed_collections : List FailedInfo := []
  stats : SyncStats := {}
deriving DecidableEq, Repr

/-- Helper shared by the mark_* methods of SyncContext: clear
current_collection (and reset current_page to 1) when it matches the given
collection id. -/
def clearCurrentIfMatches (ctx : SyncCtx) (cid : Nat) : SyncCtx :=
  match ctx.current_collection with
  | some cur =>
      if cur.id == cid then
        { ctx with current_collection := none, current_page := 1 }
      else ctx
  | none => ctx

/-- SyncContext.set_current_collection: record the in-progress cursor. -/
def setCurrentCollection (ctx : SyncCtx) (c : ProcessCollection) (page : Nat := 1) :
    SyncCtx :=
  { ctx with current_collection := some c, current_page := page }

/-- SyncContext.update_status. -/
def updateStatus (ctx : SyncCtx) (s : String) : SyncCtx :=
  { ctx with status := s }

/-- SyncContext.mark_collection_data_fetched: move the collection with the
given id from collections_to_process to fetched_collections (when present
there), then clear the cursor if it points at this collection. -/
def markCollectionDataFetched (ctx : SyncCtx) (cid : Nat) : SyncCtx :=
  let ctx2 :=
    match ctx.collections_to_process.find? (fun c => c.id == cid) with
    | some c =>
        { ctx with
          collections_to_process :=
            ctx.collections_to_process.filter (fun c2 => c2.id != cid),
          fetched_collections := ctx.fetched_collections ++ [c] }
    | none => ctx
  clearCurrentIfMatches ctx2 cid

/-- SyncContext.mark_collection_completed: append the collection to
processed_collections (unless an entry with the same id is already there),
remove it from fetched_collections, clear the cursor if it matches, and
increment stats.collections_processed. -/
def markCollectionCompleted (ctx : SyncCtx) (c : ProcessCollection) : SyncCtx :=
  let cid := c.id
  let processed :=
    if ctx.processed_collections.any (fun p => p.id == cid) then
      ctx.processed_collections
    else ctx.processed_collections ++ [c]
  let ctx2 := { ctx with
    processed_collections := processed,
    fetched_collections := ctx.fetched_collections.filter (fun x => x.id != cid) }
  let ctx3 := clearCurrentIfMatches ctx2 cid
  { ctx3 with stats :=
      { ctx3.stats with collections_processed := ctx3.stats.collections_processed + 1 } }

/-- SyncContext.mark_collection_downloaded: append the collection to
downloaded_collections (unless already there by id), remove it from
processed_collections, clear the cursor if it matches. -/
def markCollectionDownloaded (ctx : SyncCtx) (c : ProcessCollection) : SyncCtx :=
  let cid := c.id
  let downloaded :=
    if ctx.downloaded_collections.any (fun p => p.id == cid) then
      ctx.downloaded_collections
    else ctx.downloaded_collections ++ [c]
  let ctx2 := { ctx with
    downloaded_collections := downloaded,
    processed_collections := ctx.processed_collections.filter (fun x => x.id != cid) }
  clearCurrentIfMatches ctx2 cid

/-- SyncContext.mark_collection_failed: append a failed_info record and an
error string to the stats, remove the collection id from all four stage
lists, and clear the cursor if it matches. -/
def markCollectionFailed (ctx : SyncCtx) (c : ProcessCollection) (error : String)
    (now : Nat) : SyncCtx :=
  let cid := c.id
  let ctx2 := { ctx with
    failed_collections := ctx.failed_collections ++ [⟨c, error, now⟩],
    stats := { ctx.stats with
      errors := ctx.stats.errors ++ ["收藏夹 " ++ c.title ++ ": " ++ error] },
    collections_to_process :=
      ctx.collections_to_process.filter (fun x => x.id != cid),
    fetched_collections := ctx.fetched_collections.filter (fun x => x.id != cid),
    processed_collections := ctx.processed_collections.filter (fun x => x.id != cid),
    downloaded_collections := ctx.downloaded_collections.filter (fun x => x.id != cid) }
  clearCurrentIfMatches ctx2 cid

/-- SyncContext.is_resumable: status must be fetching/processing/downloading
and one of collections_to_process, fetched_collections, processed_collections
or current_collection must be non-empty (Python truthiness of the lists and
of the optional current collection).  Note that downloaded_collections is not
consulted. -/
def isResumable (ctx : SyncCtx) : Bool :=
  (ctx.status == "fetching" || ctx.status == "processing" ||
    ctx.status == "downloading") &&
  (!ctx.collections_to_process.isEmpty || !ctx.fetched_collections.isEmpty ||
    !ctx.processed_collections.isEmpty || ctx.current_collection.isSome)

/-- A fresh SyncContext seeded with the full collection list, as produced by
_initialize_sync_task: every collection in collections_to_process, all other
stage lists empty, no cursor. -/
def initialCtx (cols : List ProcessCollection) : SyncCtx :=
  { status := "initializing", collections_to_process := cols }

/-! ### Membership-transition operations of the checkpoint (claim C3)

The five mutating methods of SyncContext that move collections between the
stage lists, packaged as an operation type so that sequences of calls can be
quantified over. -/

/-- One call to a membership-transition method of SyncContext. -/
inductive SyncOp where
  | setCurrent (c : ProcessCollection) (page : Nat)
  | markFetched (cid : Nat)
  | markCompleted (c : ProcessCollection)
  | markDownloaded (c : ProcessCollection)
  | markFailed (c : ProcessCollection) (error : String) (now : Nat)
deriving DecidableEq, Repr

/-- Apply one membership-transition operation (dispatch to the corresponding
SyncContext method). -/
def applyOp (ctx : SyncCtx) : SyncOp → SyncCtx
  | .setCurrent c page => setCurrentCollection ctx c page
  | .markFetched cid => markCollectionDataFetched ctx cid
  | .markCompleted c => markCollectionCompleted ctx c
  | .markDownloaded c => markCollectionDownloaded ctx c
  | .markFailed c e now => markCollectionFailed ctx c e now

/-- Apply a sequence of operations (unrestricted, as the claim quantifies
over any sequence). -/
def applyOps (ctx : SyncCtx) (ops : List SyncOp) : SyncCtx :=
  ops.foldl applyOp ctx

/-- Does a list of collection records contain the given id? -/
def hasId (l : List ProcessCollection) (i : Nat) : Bool :=
  l.any (fun c => c.id == i)

/-- Does the failed list contain the given collection id? -/
def failedHasId (l : List FailedInfo) (i : Nat) : Bool :=
  l.any (fun f => f.collection.id == i)

/-- In how many of the four stage lists and the failed list does the id
occur?  (Each list is counted at most once.) -/
def memberCount (ctx : SyncCtx) (i : Nat) : Nat :=
  (hasId ctx.collections_to_process i).toNat +
  (hasId ctx.fetched_collections i).toNat +
  (hasId ctx.processed_collections i).toNat +
  (hasId ctx.downloaded_collections i).toNat +
  (failedHasId ctx.failed_collections i).toNat

/-- Is the id present in one of the four stage lists or the failed list
(cursor excluded)? -/
def inStagesOrFailed (ctx : SyncCtx) (i : Nat) : Bool :=
  hasId ctx.collections_to_process i || hasId ctx.fetched_collections i ||
  hasId ctx.processed_collections i || hasId ctx.downloaded_collections i ||
  failedHasId ctx.failed_collections i

/-- Is the id present in a stage list, the failed list, or the cursor? -/
def inStagesFailedOrCurrent (ctx : SyncCtx) (i : Nat) : Bool :=
  inStagesOrFailed ctx i ||
  (match ctx.current_collection with
   | some cur => cur.id == i
   | none => false)

/-- Disjointness part of the checkpoint invariant: every collection id occurs
in at most one of the four stage lists and the failed list. -/
def DisjointInv (ctx : SyncCtx) : Prop :=
  ∀ i, memberCount ctx i ≤ 1

/-- Union part of the checkpoint invariant: the ids present in the stage
lists, the failed list or the cursor are exactly the ids of the original
collection list. -/
def UnionInv (cols : List ProcessCollection) (ctx : SyncCtx) : Prop :=
  ∀ i, inStagesFailedOrCurrent ctx i = hasId cols i

/-- The precondition under which the orchestrator actually invokes each
transition: a collection is marked fetched only while its id is still in
collections_to_process, marked completed only from fetched_collections,
marked downloaded only from processed_collections, the cursor is set only to
a collection of collections_to_process, and a collection is marked failed
only while its id is still tracked somewhere in the checkpoint. -/
def guardOk (ctx : SyncCtx) : SyncOp → Bool
  | .setCurrent c _ => hasId ctx.collections_to_process c.id
  | .markFetched cid => hasId ctx.collections_to_process cid
  | .markCompleted c => hasId ctx.fetched_collections c.id
  | .markDownloaded c => hasId ctx.processed_collections c.id
  | .markFailed c _ _ => inStagesFailedOrCurrent ctx c.id

/-- Apply a sequence of operations, failing (none) as soon as one of them is
invoked outside its orchestrator precondition. -/
def applyOpsGuarded (ctx : SyncCtx) : List SyncOp → Option SyncCtx
  | [] => some ctx
  | op :: ops =>
      if guardOk ctx op then applyOpsGuarded (applyOp ctx op) ops else none

/-! ### Catalog store and the Reconciliation Engine

Embedding of the parts of the durable catalog touched by
_process_single_collection_data / _process_video_data / _mark_video_deleted
(optimized_sync_service.py) and the DAO functions they call
(video_dao.py, models/database.py).  Videos are keyed by their globally
unique bvid; membership rows reference the video by that key.  The external
cover downloader is a parameter returning the local path on success. -/

/-- Row of the uploaders table (the fields the engine reads). -/
structure Uploader where
  mid : String
  name : String
deriving DecidableEq, Repr

/-- Row of the videos table (the fields the reconciliation engine reads or
writes). -/
structure CatalogVideo where
  bvid : String
  title : String
  attr : Nat
  uploader_mid : String
  is_deleted : Bool
  deleted_at : Option Nat
  local_cover_path : Option String
deriving DecidableEq, Repr

/-- Row of the collection_videos membership table; the video is referenced by
its globally unique bvid. -/
structure CollectionVideoRow where
  collection_id : Nat
  bvid : String
  fav_time : Option Nat
  first_seen : Nat
  last_seen : Nat
deriving DecidableEq, Repr

/-- Row of the deletion_logs table, as written by log_deletion. -/
structure DeletionLogRow where
  collection_id : Nat
  video_bvid : String
  video_title : String
  uploader_name : String
  reason : String
deriving DecidableEq, Repr

/-- The catalog store: uploaders, videos, membership rows, inserted
video_stats rows (tracked by video bvid) and the deletion log. -/
structure CatalogState where
  uploaders : List Uploader := []
  videos : List CatalogVideo := []
  collection_videos : List CollectionVideoRow := []
  video_stats : List String := []
  deletion_logs : List DeletionLogRow := []
deriving DecidableEq, Repr

/-- One raw fetched item, reduced to the fields _process_video_data reads. -/
structure FetchedItem where
  bvid : String
  title : String
  attr : Nat
  uploader_mid : String
  uploader_name : String
  fav_time : Option Nat
  cover : String
  cnt_info : Bool
deriving DecidableEq, Repr

/-- The provider's unavailability sentinel title. -/
def invalidTitle : String := "已失效视频"

/-- Substring test on character lists (used for the Python `in` operator on
strings). -/
def listContainsInfix (needle hay : List Char) : Bool :=
  (List.range (hay.length + 1)).any (fun i => needle.isPrefixOf (hay.drop i))

/-- Python `needle in hay` on strings. -/
def strContains (hay needle : String) : Bool :=
  listContainsInfix needle.toList hay.toList

/-- The unavailability test of _process_video_data:
title == "已失效视频" or attr in [1, 9]. -/
def itemIsDeleted (item : FetchedItem) : Bool :=
  item.title == invalidTitle || item.attr == 1 || item.attr == 9

/-- get_or_create_uploader: update the stored name when the uploader exists,
insert it otherwise.  (The source updates only when a tracked field changed;
writing the same name unconditionally is extensionally identical.) -/
def getOrCreateUploader (cat : CatalogState) (mid name : String) : CatalogState :=
  if cat.uploaders.any (fun u => u.mid == mid) then
    { cat with uploaders := cat.uploaders.map (fun u =>
        if u.mid == mid then { u with name := name } else u) }
  else
    { cat with uploaders := cat.uploaders ++ [⟨mid, name⟩] }

/-- Name of the uploader with the given mid, defaulting to "Unknown" (the
dict.get default used by _mark_video_deleted). -/
def uploaderNameOf (cat : CatalogState) (mid : String) : String :=
  match cat.uploaders.find? (fun u => u.mid == mid) with
  | some u => u.name
  | none => "Unknown"

/-- video_dao.add_to_collection: refresh fav_time/last_seen when the
membership row exists, insert a fresh row otherwise. -/
def addToCollection (cat : CatalogState) (collectionId : Nat) (bvid : String)
    (fav_time : Option Nat) (now : Nat) : CatalogState :=
  if cat.collection_videos.any (fun m =>
      m.collection_id == collectionId && m.bvid == bvid) then
    { cat with collection_videos := cat.collection_videos.map (fun m =>
        if m.collection_id == collectionId && m.bvid == bvid then
          { m with fav_time := fav_time, last_seen := now }
        else m) }
  else
    { cat with collection_videos :=
        cat.collection_videos ++ [⟨collectionId, bvid, fav_time, now, now⟩] }

/-- _download_cover_if_needed: skip when a local cover is already recorded,
otherwise invoke the downloader `dl` and on success store the returned path
and count the download. -/
def downloadCoverIfNeeded (dl : String → String → Option String)
    (cat : CatalogState) (stats : SyncStats) (bvid cover_url : String) :
    CatalogState × SyncStats :=
  match cat.videos.find? (fun v => v.bvid == bvid) with
  | none => (cat, stats)
  | some v =>
      if v.local_cover_path.isSome then (cat, stats)
      else
        match dl bvid cover_url with
        | some path =>
            ({ cat with videos := cat.videos.map (fun w =>
                 if w.bvid == bvid then { w with local_cover_path := some path }
                 else w) },
             { stats with covers_downloaded := stats.covers_downloaded + 1 })
        | none => (cat, stats)

/-- Tail of _process_video_data shared by the create and update branches:
membership upsert, optional video_stats insert, optional cover download. -/
def postProcessVideo (dl : String → String → Option String)
    (cat : CatalogState) (stats : SyncStats) (item : FetchedItem)
    (collectionId : Nat) (now : Nat) : CatalogState × SyncStats :=
  let cat1 := addToCollection cat collectionId item.bvid item.fav_time now
  let cat2 :=
    if item.cnt_info then
      { cat1 with video_stats := cat1.video_stats ++ [item.bvid] }
    else cat1
  if !(itemIsDeleted item) && item.cover != "" then
    downloadCoverIfNeeded dl cat2 stats item.bvid item.cover
  else (cat2, stats)

/-- The update branch of _process_video_data: the new (title, is_deleted,
deleted_at) triple for an existing video, detecting the available/unavailable
transitions driven by the sentinel. -/
def updateFields (existing : CatalogVideo) (item : FetchedItem) (now : Nat) :
    String × Bool × Option Nat :=
  let isDel := itemIsDeleted item
  let currentDeleted := existing.is_deleted
  if !currentDeleted && isDel then
    (if !strContains existing.title invalidTitle then
       existing.title ++ " (已失效视频)"
     else item.title,
     true, some now)
  else if currentDeleted && !isDel then
    (if strContains existing.title invalidTitle then
       (if item.title == invalidTitle then
          existing.title.replace " (已失效视频)" ""
        else item.title)
     else item.title,
     false, none)
  else
    (item.title, isDel, existing.deleted_at)

/-- _process_video_data: create the uploader, then either update the existing
video (applying updateFields) or create a fresh video record, then upsert the
membership row and the ancillary data.  Returns the new catalog and stats. -/
def processVideoData (dl : String → String → Option String)
    (st : CatalogState × SyncStats) (item : FetchedItem) (collectionId : Nat)
    (now : Nat) : CatalogState × SyncStats :=
  let cat := st.1
  let stats := st.2
  let isDel := itemIsDeleted item
  let cat := getOrCreateUploader cat item.uploader_mid item.uploader_name
  match cat.videos.find? (fun v => v.bvid == item.bvid) with
  | some existing =>
      let newFields : String × Bool × Option Nat := updateFields existing item now
      let cat := { cat with videos := cat.videos.map (fun v =>
        if v.bvid == item.bvid then
          { v with title := newFields.1, attr := item.attr,
                   is_deleted := newFields.2.1, deleted_at := newFields.2.2 }
        else v) }
      let stats := { stats with videos_updated := stats.videos_updated + 1 }
      postProcessVideo dl cat stats item collectionId now
  | none =>
      let newVideo : CatalogVideo :=
        { bvid := item.bvid, title := item.title, attr := item.attr,
          uploader_mid := item.uploader_mid, is_deleted := isDel,
          deleted_at := if isDel then some now else none,
          local_cover_path := none }
      let cat := { cat with videos := cat.videos ++ [newVideo] }
      let stats := { stats with videos_added := stats.videos_added + 1 }
      postProcessVideo dl cat stats item collectionId now

/-- _mark_video_deleted: when the video exists, append the deleted-video
record to the stats, mark the video globally deleted (video_dao.
mark_as_deleted — an unconditional update), remove the membership row for
this collection, and append a deletion-log row.  `collectionTitle` is the
title resolved from the collections table by the caller. -/
def markVideoDeleted (cat : CatalogState) (stats : SyncStats) (bvid : String)
    (collectionId : Nat) (collectionTitle : String) (now : Nat) :
    CatalogState × SyncStats :=
  match cat.videos.find? (fun v => v.bvid == bvid) with
  | none => (cat, stats)
  | some video =>
      let upName := uploaderNameOf cat video.uploader_mid
      let rec1 : DeletedVideoInfo :=
        ⟨bvid, video.title, upName, collectionTitle, now⟩
      let stats2 : SyncStats :=
        { stats with deleted_videos := stats.deleted_videos ++ [rec1] }
      let cat2 : CatalogState :=
        { cat with videos := cat.videos.map (fun v =>
            if v.bvid == bvid then
              { v with is_deleted := true, deleted_at := some now }
            else v) }
      let cat3 : CatalogState :=
        { cat2 with collection_videos :=
            cat2.collection_videos.filter (fun m =>
              !(m.collection_id == collectionId && m.bvid == bvid)) }
      let logRow : DeletionLogRow :=
        ⟨collectionId, bvid, video.title, upName, "从B站收藏夹中移除"⟩
      let cat4 : CatalogState :=
        { cat3 with deletion_logs := cat3.deletion_logs ++ [logRow] }
      (cat4, stats2)

/-- Body of the removal loop of _process_single_collection_data: mark the
video deleted and increment stats.videos_deleted. -/
def reconcileRemoved (cat : CatalogState) (stats : SyncStats) (bvid : String)
    (collectionId : Nat) (collectionTitle : String) (now : Nat) :
    CatalogState × SyncStats :=
  let st := markVideoDeleted cat stats bvid collectionId collectionTitle now
  (st.1, { st.2 with videos_deleted := st.2.videos_deleted + 1 })

/-- The bvids currently recorded as members of the collection
(video_dao.get_videos_by_collection: membership rows joined with the videos
and uploaders tables). -/
def existingBvids (cat : CatalogState) (collectionId : Nat) : List String :=
  ((cat.collection_videos.filter (fun m => m.collection_id == collectionId)).filter
    (fun m => cat.videos.any (fun v =>
      v.bvid == m.bvid && cat.uploaders.any (fun u => u.mid == v.uploader_mid)))).map
    (fun m => m.bvid)

/-- Core of _process_single_collection_data (the reconciliation run for one
collection): record the catalog membership, process every fetched item, then
handle every membership bvid absent from the fetch through the removal
path. -/
def processCollectionData (dl : String → String → Option String)
    (cat : CatalogState) (stats : SyncStats) (items : List FetchedItem)
    (collectionId : Nat) (collectionTitle : String) (now : Nat) :
    CatalogState × SyncStats :=
  let existing := existingBvids cat collectionId
  let st := items.foldl
    (fun st item => processVideoData dl st item collectionId now) (cat, stats)
  let apiBvids := items.map (fun i => i.bvid)
  let deleted := existing.filter (fun b => !(apiBvids.contains b))
  deleted.foldl
    (fun st b => reconcileRemoved st.1 st.2 b collectionId collectionTitle now) st

/-! ### Checkpoint save (claim C1)

SyncContext.save_lock_file serializes the checkpoint and writes it with
`open(path, "w")` followed by json.dump: opening with mode "w" truncates the
file in place and the dump then appends the serialized bytes progressively.
File contents are modelled as byte lists; `oldContent` is whatever the
well-known checkpoint path held before the save and `newContent` is the
serialized checkpoint being written. -/

/-- The sequence of contents observable at the checkpoint path during one
save_lock_file call: the previous content, then the truncated (empty) file,
then each longer prefix of the new serialized content as the dump
proceeds. -/
def saveObservableStates (oldContent newContent : List Nat) : List (List Nat) :=
  oldContent :: (List.range (newContent.length + 1)).map
    (fun i => newContent.take i)

/-- Content left at the checkpoint path when the save fails after k bytes of
the new serialized checkpoint have been written (the open("w") truncation
already destroyed the previous content). -/
def abortedSaveContent (newContent : List Nat) (k : Nat) : List Nat :=
  newContent.take k

/-! ### Processing phase (claim C2)

_process_all_data iterates over the collection cache directories and, for
each directory, resolves the collection metadata by searching
collections_to_process and then the current_collection — never
fetched_collections; a directory whose metadata is not found is skipped. -/

/-- The metadata lookup of _process_all_data for one cache directory id. -/
def findCollectionMetadata (ctx : SyncCtx) (cid : Nat) : Option ProcessCollection :=
  match ctx.collections_to_process.find? (fun c => c.id == cid) with
  | some c => some c
  | none =>
      match ctx.current_collection with
      | some cur => if cur.id == cid then some cur else none
      | none => none

/-- The cache-directory ids that _process_all_data actually processes: those
whose metadata lookup succeeds. -/
def processedCacheDirs (ctx : SyncCtx) (cacheDirs : List Nat) : List Nat :=
  cacheDirs.filter (fun cid => (findCollectionMetadata ctx cid).isSome)

/-- The cache-directory ids that _process_all_data skips with the
"metadata not found" warning. -/
def skippedCacheDirs (ctx : SyncCtx) (cacheDirs : List Nat) : List Nat :=
  cacheDirs.filter (fun cid => (findCollectionMetadata ctx cid).isNone)

/-! ### Fetching phase (claim C9)

_fetch_all_collections_data. The per-collection page fetch
(_fetch_single_collection_data, an external-network paging loop) is
abstracted into an outcome function `fetch` from collection id to
Except: `.error e` models the fetch raising with message e. The resumed
current collection is fetched OUTSIDE any try/except; the loop over a copy of
collections_to_process wraps each iteration in try/except and records
failures via mark_collection_failed. -/

/-- Loop body of the fetching phase for one collection of the
collections_to_process copy. -/
def fetchLoopStep (fetch : Nat → Except String Unit) (now : Nat)
    (ctx : SyncCtx) (c : ProcessCollection) : SyncCtx :=
  let ctx1 := setCurrentCollection ctx c 1
  match fetch c.id with
  | .ok _ => markCollectionDataFetched ctx1 c.id
  | .error e => markCollectionFailed ctx1 c e now

/-- _fetch_all_collections_data: set status to fetching; when a current
collection is recorded, re-fetch it first with no exception handler (an
error propagates and aborts the phase); then iterate a copy of
collections_to_process, catching each collection's failure. -/
def fetchAllCollectionsData (fetch : Nat → Except String Unit) (now : Nat)
    (ctx : SyncCtx) : Except String SyncCtx :=
  let ctx0 := updateStatus ctx "fetching"
  match ctx0.current_collection with
  | some cur =>
      match fetch cur.id with
      | .error e => .error e
      | .ok _ =>
          let ctx1 := markCollectionDataFetched ctx0 cur.id
          .ok (ctx1.collections_to_process.foldl (fetchLoopStep fetch now) ctx1)
  | none =>
      .ok (ctx0.collections_to_process.foldl (fetchLoopStep fetch now) ctx0)

/-! ### Task queue and executor (claims C6 and C10)

task_models.py, task_executor.py and task_manager.py.  The handler invoked by
_execute_task is modelled as an Except value: `.error e` models the handler
raising with message e. -/

/-- TaskStatus enum. -/
inductive BTaskStatus where
  | pending
  | running
  | completed
  | failed
  | cancelled
  | paused
deriving DecidableEq, Repr

/-- TaskResult dataclass (the fields the executor and the sync handler
write). -/
structure BTaskResult where
  success : Bool
  data : Option SyncStats
  error_message : Option String
  error_code : Option String
deriving DecidableEq, Repr

/-- BaseTask (the fields the executor and TaskManager.retry_task touch). -/
structure BTask where
  status : BTaskStatus := .pending
  retry_count : Nat := 0
  max_retries : Nat := 3
  result : Option BTaskResult := none
  started_at : Option Nat := none
  completed_at : Option Nat := none
deriving DecidableEq, Repr

/-- TaskExecutor._execute_task: mark running, invoke the handler; on success
mark completed and attach the result; on a raised exception mark failed with
an EXECUTION_ERROR result, then — iff retry_count < max_retries — increment
retry_count and requeue as pending. -/
def executeTask (handlerOutcome : Except String BTaskResult) (t : BTask)
    (now : Nat) : BTask :=
  let t1 := { t with status := .running, started_at := some now }
  match handlerOutcome with
  | .ok r =>
      { t1 with status := .completed, completed_at := some now, result := some r }
  | .error e =>
      let t2 := { t1 with
        status := .failed, completed_at := some now,
        result := some ⟨false, none, some e, some "EXECUTION_ERROR"⟩ }
      if t2.retry_count < t2.max_retries then
        { t2 with
          retry_count := t2.retry_count + 1, status := .pending,
          started_at := none, completed_at := none }
      else t2

/-- One poll of TaskExecutor._task_loop: only a pending task is dequeued and
executed; any other task is left untouched. -/
def executorStep (handler : BTask → Except String BTaskResult) (now : Nat)
    (t : BTask) : BTask :=
  if t.status == .pending then executeTask (handler t) t now else t

/-- k successive polls of the executor loop on the same task. -/
def executorIter (handler : BTask → Except String BTaskResult) (now : Nat) :
    Nat → BTask → BTask
  | 0, t => t
  | k + 1, t => executorStep handler now (executorIter handler now k t)

/-- TaskManager.retry_task: legal only while failed; resets the task to
pending, increments retry_count (with no bound check), and clears the
timestamps and result. -/
def retryTask (t : BTask) : BTask :=
  if t.status == .failed then
    { t with
      status := .pending, retry_count := t.retry_count + 1,
      started_at := none, completed_at := none, result := none }
  else t

/-- TaskExecutor._handle_sync_task: run the sync inside try/except and always
return a TaskResult — success with the stats, or success=False with the
error message and code SYNC_ERROR when the sync run raised.  This function
never raises. -/
def handleSyncTask (syncOutcome : Except String SyncStats) : BTaskResult :=
  match syncOutcome with
  | .ok stats => ⟨true, some stats, none, none⟩
  | .error e => ⟨false, none, some e, some "SYNC_ERROR"⟩

/-- Executing a sync task: the handler registered for SYNC_FAVORITES is
_handle_sync_task, whose invocation always returns normally. -/
def executeSyncTask (syncOutcome : Except String SyncStats) (t : BTask)
    (now : Nat) : BTask :=
  executeTask (.ok (handleSyncTask syncOutcome)) t now

/-! ## Claim theorems -/

/-- C7 (counterexample): a checkpoint in the downloading phase whose only
non-empty stage set is downloaded_collections is NOT resumable, although its
status is "downloading" and a stage set is non-empty — is_resumable never
consults downloaded_collections, so the claimed characterization fails at
this checkpoint. -/
theorem C7_counterexample :
    isResumable
      { status := "downloading", downloaded_collections := [⟨1, "fav"⟩] }
      = false ∧
    SyncCtx.status
      { status := "downloading", downloaded_collections := [⟨1, "fav"⟩] }
      = "downloading" ∧
    SyncCtx.downloaded_collections
      { status := "downloading", downloaded_collections := [⟨1, "fav"⟩] }
      ≠ [] := by
  refine ⟨by decide, rfl, by decide⟩

/-- C7 (amended): is_resumable returns true iff the status is fetching,
processing or downloading AND one of collections_to_process,
fetched_collections, processed_collections or current_collection is
non-empty; downloaded_collections plays no role, so a checkpoint whose only
non-empty stage set is downloaded is not resumable, and a completed or
cancelled checkpoint is never resumable. -/
theorem C7_is_resumable_characterization (ctx : SyncCtx) :
    isResumable ctx = true ↔
      ((ctx.status = "fetching" ∨ ctx.status = "processing" ∨
        ctx.status = "downloading") ∧
       (ctx.collections_to_process ≠ [] ∨ ctx.fetched_collections ≠ [] ∨
        ctx.processed_collections ≠ [] ∨ ctx.current_collection ≠ none)) := by
  simp only [isResumable, Option.isSome_iff_ne_none, Bool.and_eq_true,
    Bool.or_eq_true, beq_iff_eq, Bool.not_eq_true', List.isEmpty_eq_false]
  tauto

/-- C1 (counterexample): during a checkpoint save that writes the two-byte
serialized checkpoint [1, 2] over a previous checkpoint [0], the checkpoint
path observably holds [1] — a partially-written file that is neither the
previous nor the new checkpoint — and a save failing at that point leaves
[1], not the previous valid checkpoint [0]. -/
theorem C1_counterexample :
    abortedSaveContent [1, 2] 1 ∈ saveObservableStates [0] [1, 2] ∧
    abortedSaveContent [1, 2] 1 ≠ ([0] : List Nat) ∧
    abortedSaveContent [1, 2] 1 ≠ ([1, 2] : List Nat) := by
  decide

/-- C1 (amended): save_lock_file writes the checkpoint file in place
(truncate-then-write, not write-temp-then-replace): every prefix of the new
serialized content is an observable state of the checkpoint path, a save that
fails after k bytes leaves exactly that k-byte prefix (so a failed save does
not leave the previous checkpoint intact once truncation happened), and only
a save that runs to completion leaves the full new content. -/
theorem C1_save_not_atomic (oldC newC : List Nat) (k : Nat)
    (hk : k ≤ newC.length) :
    newC.take k ∈ saveObservableStates oldC newC ∧
    abortedSaveContent newC k = newC.take k ∧
    (saveObservableStates oldC newC).getLast? = some newC := by
  refine ⟨?_, rfl, ?_⟩
  · exact List.mem_cons_of_mem _
      (List.mem_map.mpr ⟨k, List.mem_range.mpr (Nat.lt_succ_of_le hk), rfl⟩)
  · show (oldC :: (List.range (newC.length + 1)).map (fun i => newC.take i)).getLast?
        = some newC
    rw [List.range_succ, List.map_append]
    simp only [List.map_cons, List.map_nil, List.take_length]
    rw [← List.cons_append, List.getLast?_concat]

/-- C1 witness. -/
theorem C1_save_not_atomic_witness :
    [1] ∈ saveObservableStates [0] [1, 2] ∧
    abortedSaveContent [1, 2] 1 = [1] ∧
    (saveObservableStates [0] [1, 2]).getLast? = some [1, 2] := by
  have h := C1_save_not_atomic [0] [1, 2] 1 (by decide)
  simpa using h

/-- C2 (code bug): in the processing phase, a collection that sits in
fetched_collections (the normal situation after the fetch phase moved every
collection out of collections_to_process) is NOT found by
_process_all_data's metadata lookup — which searches only
collections_to_process and current_collection — so its cached data
directory is skipped instead of being reconciled. -/
theorem C2_fetched_collection_skipped :
    processedCacheDirs
      { status := "processing", fetched_collections := [⟨1, "默认收藏夹"⟩] }
      [1] = [] ∧
    skippedCacheDirs
      { status := "processing", fetched_collections := [⟨1, "默认收藏夹"⟩] }
      [1] = [1] ∧
    hasId (SyncCtx.fetched_collections
      { status := "processing", fetched_collections := [⟨1, "默认收藏夹"⟩] })
      1 = true := by
  decide

/-- C10 (confirmed): when the underlying sync run raises, _handle_sync_task
catches the exception itself and returns a TaskResult with success=False and
code SYNC_ERROR, so _execute_task takes its success path: the task ends
completed (not failed), its retry_count is unchanged (the automatic
failed-to-pending retry path is never taken), and only result.success
reveals the failure. -/
theorem C10_sync_failure_completes_task (e : String) (t : BTask) (now : Nat)
    (syncOutcome : Except String SyncStats) (h : syncOutcome = .error e) :
    (executeSyncTask syncOutcome t now).status = .completed ∧
    (executeSyncTask syncOutcome t now).result =
      some ⟨false, none, some e, some "SYNC_ERROR"⟩ ∧
    (executeSyncTask syncOutcome t now).retry_count = t.retry_count := by
  subst h
  refine ⟨rfl, rfl, rfl⟩

/-- C10 witness. -/
theorem C10_sync_failure_completes_task_witness :
    (executeSyncTask (.error "network down") {} 7).status = .completed ∧
    (executeSyncTask (.error "network down") {} 7).result =
      some ⟨false, none, some "network down", some "SYNC_ERROR"⟩ ∧
    (executeSyncTask (.error "network down") {} 7).retry_count =
      BTask.retry_count {} := by
  exact C10_sync_failure_completes_task "network down" {} 7
    (.error "network down") rfl

/-! ### Helper lemmas for the fetching phase -/

/-- clear_current never touches the failed list. -/
theorem clearCurrentIfMatches_failed (ctx : SyncCtx) (cid : Nat) :
    (clearCurrentIfMatches ctx cid).failed_collections = ctx.failed_collections := by
  unfold clearCurrentIfMatches
  cases ctx.current_collection with
  | none => rfl
  | some cur => cases h : (cur.id == cid) <;> simp [h]

/-- mark_collection_data_fetched never touches the failed list. -/
theorem markCollectionDataFetched_failed (ctx : SyncCtx) (cid : Nat) :
    (markCollectionDataFetched ctx cid).failed_collections =
      ctx.failed_collections := by
  unfold markCollectionDataFetched
  cases h : ctx.collections_to_process.find? (fun c => c.id == cid) <;>
    simp [clearCurrentIfMatches_failed]

/-- mark_collection_failed appends exactly one failed_info record. -/
theorem markCollectionFailed_failed (ctx : SyncCtx) (c : ProcessCollection)
    (e : String) (now : Nat) :
    (markCollectionFailed ctx c e now).failed_collections =
      ctx.failed_collections ++ [⟨c, e, now⟩] := by
  unfold markCollectionFailed
  rw [clearCurrentIfMatches_failed]

/-- A failed record present before a fetch-loop step is still present after
it, and a step whose fetch raises adds the corresponding record. -/
theorem fetchLoopStep_failed (fetch : Nat → Except String Unit) (now : Nat)
    (ctx : SyncCtx) (c : ProcessCollection) :
    (∀ f ∈ ctx.failed_collections,
      f ∈ (fetchLoopStep fetch now ctx c).failed_collections) ∧
    (∀ e, fetch c.id = .error e →
      (⟨c, e, now⟩ : FailedInfo) ∈ (fetchLoopStep fetch now ctx c).failed_collections) := by
  unfold fetchLoopStep
  cases h : fetch c.id with
  | ok u =>
      refine ⟨?_, ?_⟩
      · intro f hf
        rw [markCollectionDataFetched_failed]
        exact hf
      · intro e he
        exact absurd he (by simp)
  | error e0 =>
      refine ⟨?_, ?_⟩
      · intro f hf
        rw [markCollectionFailed_failed]
        exact List.mem_append_left _ hf
      · intro e he
        injection he with h1
        subst h1
        rw [markCollectionFailed_failed]
        exact List.mem_append_right _ (List.mem_singleton.mpr rfl)

/-- Through the whole fetch loop, previously recorded failures persist and
every collection whose fetch raises is recorded. -/
theorem fetchLoop_failed (fetch : Nat → Except String Unit) (now : Nat) :
    ∀ (l : List ProcessCollection) (ctx : SyncCtx),
    (∀ f ∈ ctx.failed_collections,
      f ∈ (l.foldl (fetchLoopStep fetch now) ctx).failed_collections) ∧
    (∀ c ∈ l, ∀ e, fetch c.id = .error e →
      (⟨c, e, now⟩ : FailedInfo) ∈
        (l.foldl (fetchLoopStep fetch now) ctx).failed_collections) := by
  intro l
  induction l with
  | nil => exact fun ctx => ⟨fun f hf => hf, fun c hc => absurd hc (List.not_mem_nil c)⟩
  | cons c0 rest ih =>
      intro ctx
      have step := fetchLoopStep_failed fetch now ctx c0
      refine ⟨?_, ?_⟩
      · intro f hf
        exact (ih (fetchLoopStep fetch now ctx c0)).1 f (step.1 f hf)
      · intro c hc e he
        rcases List.mem_cons.mp hc with hceq | hcrest
        · subst hceq
          exact (ih (fetchLoopStep fetch now ctx c)).1 _ (step.2 e he)
        · exact (ih (fetchLoopStep fetch now ctx c0)).2 c hcrest e he

/-- C9 (counterexample): on resume with a recorded current_collection whose
page fetch raises, the error is NOT caught per-collection: the fetching
phase itself aborts with the exception (the collection is never recorded in
the failed list), contradicting the claim that every fetch failure —
including the resumed current collection's — is caught and recorded while
the run continues. -/
theorem C9_counterexample :
    fetchAllCollectionsData (fun _ => .error "network down") 3
      { status := "fetching", collections_to_process := [⟨1, "fav"⟩],
        current_collection := some ⟨1, "fav"⟩ }
      = .error "network down" := rfl

/-- C9 (amended): in the fetching phase, a per-collection fetch failure in
the main loop over collections_to_process is caught and recorded into the
failed list with the exception message and timestamp, and the loop continues
(the phase returns normally); but the re-fetch of the resumed
current_collection runs outside any per-collection handler, so its failure
propagates and aborts the whole fetching phase. -/
theorem C9_fetch_failure_handling (fetch : Nat → Except String Unit) (now : Nat)
    (ctx : SyncCtx) :
    (ctx.current_collection = none →
      ∃ ctx2, fetchAllCollectionsData fetch now ctx = .ok ctx2 ∧
        ∀ c ∈ ctx.collections_to_process, ∀ e, fetch c.id = .error e →
          (⟨c, e, now⟩ : FailedInfo) ∈ ctx2.failed_collections) ∧
    (∀ cur e, ctx.current_collection = some cur → fetch cur.id = .error e →
      fetchAllCollectionsData fetch now ctx = .error e) := by
  constructor
  · intro hnone
    unfold fetchAllCollectionsData
    simp only [updateStatus, hnone]
    refine ⟨_, rfl, ?_⟩
    intro c hc e he
    exact (fetchLoop_failed fetch now ctx.collections_to_process _).2 c hc e he
  · intro cur e hcur he
    unfold fetchAllCollectionsData
    simp only [updateStatus, hcur, he]

/-- C9 witness. -/
theorem C9_fetch_failure_handling_witness :
    (SyncCtx.current_collection
        { status := "fetching", collections_to_process := [⟨1, "fav"⟩] } = none →
      ∃ ctx2, fetchAllCollectionsData (fun _ => .error "network down") 3
        { status := "fetching", collections_to_process := [⟨1, "fav"⟩] } = .ok ctx2 ∧
        ∀ c ∈ SyncCtx.collections_to_process
          { status := "fetching", collections_to_process := [⟨1, "fav"⟩] },
          ∀ e, (fun _ : Nat => Except.error (ε := String) (α := Unit) "network down") c.id = .error e →
          (⟨c, e, 3⟩ : FailedInfo) ∈ ctx2.failed_collections) ∧
    (∀ cur e, SyncCtx.current_collection
        { status := "fetching", collections_to_process := [⟨1, "fav"⟩] } = some cur →
      (fun _ : Nat => Except.error (ε := String) (α := Unit) "network down") cur.id = .error e →
      fetchAllCollectionsData (fun _ => .error "network down") 3
        { status := "fetching", collections_to_process := [⟨1, "fav"⟩] } = .error e) :=
  C9_fetch_failure_handling (fun _ => .error "network down") 3
    { status := "fetching", collections_to_process := [⟨1, "fav"⟩] }

/-! ### Task retry bound (claim C6) -/

/-- A task handler that raises on every invocation. -/
def alwaysFailHandler : BTask → Except String BTaskResult :=
  fun _ => .error "boom"

/-- An executor poll of a pending task whose handler raises: the task either
requeues as pending with retry_count incremented (when below max_retries) or
settles as failed. -/
theorem executorStep_pending_fail (handler : BTask → Except String BTaskResult)
    (now : Nat) (t : BTask) (e : String) (hst : t.status = .pending)
    (he : handler t = .error e) :
    executorStep handler now t =
      if t.retry_count < t.max_retries then
        { t with
          status := .pending, retry_count := t.retry_count + 1,
          started_at := none, completed_at := none,
          result := some ⟨false, none, some e, some "EXECUTION_ERROR"⟩ }
      else
        { t with
          status := .failed, started_at := some now,
          completed_at := some now,
          result := some ⟨false, none, some e, some "EXECUTION_ERROR"⟩ } := by
  simp only [executorStep, executeTask, hst, he, beq_self_eq_true, if_true]

/-- An executor poll leaves a non-pending task untouched. -/
theorem executorStep_not_pending (handler : BTask → Except String BTaskResult)
    (now : Nat) (t : BTask) (hst : t.status ≠ .pending) :
    executorStep handler now t = t := by
  unfold executorStep
  rw [if_neg]
  simpa using hst

/-- Characterization of the executor loop on a task whose handler always
raises: after k polls the task is still pending with retry_count = k while
k ≤ max_retries, and permanently failed with retry_count = max_retries once
k exceeds max_retries; max_retries itself is never modified. -/
theorem executorIter_always_fail_spec (handler : BTask → Except String BTaskResult)
    (now : Nat) (t0 : BTask) (hfail : ∀ u, ∃ e, handler u = .error e)
    (hstart : t0.status = .pending) (hcount : t0.retry_count = 0) :
    ∀ k, (executorIter handler now k t0).max_retries = t0.max_retries ∧
      (k ≤ t0.max_retries → (executorIter handler now k t0).status = .pending ∧
        (executorIter handler now k t0).retry_count = k) ∧
      (t0.max_retries < k → (executorIter handler now k t0).status = .failed ∧
        (executorIter handler now k t0).retry_count = t0.max_retries) := by
  intro k
  induction k with
  | zero =>
      exact ⟨rfl, fun _ => ⟨hstart, hcount⟩, fun h => absurd h (Nat.not_lt_zero _)⟩
  | succ k ih =>
      obtain ⟨ihmax, ihpend, ihfail⟩ := ih
      simp only [executorIter]
      by_cases hk : k ≤ t0.max_retries
      · obtain ⟨hst, hct⟩ := ihpend hk
        obtain ⟨e, he⟩ := hfail (executorIter handler now k t0)
        rw [executorStep_pending_fail handler now _ e hst he, hct, ihmax]
        by_cases hklt : k < t0.max_retries
        · rw [if_pos hklt]
          exact ⟨rfl, fun _ => ⟨rfl, rfl⟩, fun hgt => absurd hgt (by omega)⟩
        · rw [if_neg hklt]
          have hkeq : k = t0.max_retries := by omega
          exact ⟨rfl, fun hle => absurd hle (by omega),
            fun _ => ⟨rfl, by rw [hkeq]⟩⟩
      · have hgt : t0.max_retries < k := Nat.not_le.mp hk
        obtain ⟨hst, hct⟩ := ihfail hgt
        rw [executorStep_not_pending handler now _ (by rw [hst]; intro h; cases h)]
        exact ⟨ihmax, fun hle => absurd hle (by omega), fun _ => ⟨hst, hct⟩⟩

/-- C6 (counterexample): a task with max_retries = 0 whose handler always
raises ends failed with retry_count = 0 after one executor poll, but one
explicit retry_task request requeues it as pending with retry_count = 1 >
max_retries — the claimed bound "retryCount never exceeds maxRetries under
every sequence of executor runs and explicit retry requests" is violated,
and the task does not remain permanently failed. -/
theorem C6_counterexample :
    (executorStep alwaysFailHandler 5 { max_retries := 0 }).status = .failed ∧
    (executorStep alwaysFailHandler 5 { max_retries := 0 }).retry_count = 0 ∧
    (retryTask (executorStep alwaysFailHandler 5 { max_retries := 0 })).status
      = .pending ∧
    (retryTask (executorStep alwaysFailHandler 5 { max_retries := 0 })).retry_count
      = 1 ∧
    BTask.max_retries { max_retries := 0 } = 0 := by
  decide

/-- C6 (amended): under executor runs alone, a task whose handler always
raises is retried exactly max_retries times — after any number of polls its
retry_count never exceeds max_retries, and once the polls exceed max_retries
it is failed with retry_count = max_retries and stays so; but an explicit
retry_task request on the exhausted task unconditionally requeues it as
pending with retry_count = max_retries + 1, exceeding the bound. -/
theorem C6_retry_bound (handler : BTask → Except String BTaskResult)
    (now : Nat) (t0 : BTask) (hfail : ∀ u, ∃ e, handler u = .error e)
    (hstart : t0.status = .pending) (hcount : t0.retry_count = 0) :
    (∀ k, (executorIter handler now k t0).retry_count ≤ t0.max_retries) ∧
    (∀ k, t0.max_retries < k → (executorIter handler now k t0).status = .failed ∧
      (executorIter handler now k t0).retry_count = t0.max_retries) ∧
    (retryTask (executorIter handler now (t0.max_retries + 1) t0)).status
      = .pending ∧
    (retryTask (executorIter handler now (t0.max_retries + 1) t0)).retry_count
      = t0.max_retries + 1 := by
  have spec := executorIter_always_fail_spec handler now t0 hfail hstart hcount
  have hterm := (spec (t0.max_retries + 1)).2.2 (Nat.lt_succ_self _)
  refine ⟨?_, fun k hk => (spec k).2.2 hk, ?_, ?_⟩
  · intro k
    by_cases hk : k ≤ t0.max_retries
    · rw [((spec k).2.1 hk).2]; exact hk
    · rw [((spec k).2.2 (Nat.not_le.mp hk)).2]
  · simp [retryTask, hterm.1]
  · simp [retryTask, hterm.1, hterm.2]

/-- C6 witness. -/
theorem C6_retry_bound_witness :
    (∀ k, (executorIter alwaysFailHandler 5 k {}).retry_count ≤
      BTask.max_retries {}) ∧
    (∀ k, BTask.max_retries {} < k →
      (executorIter alwaysFailHandler 5 k {}).status = .failed ∧
      (executorIter alwaysFailHandler 5 k {}).retry_count = BTask.max_retries {}) ∧
    (retryTask (executorIter alwaysFailHandler 5 (BTask.max_retries {} + 1) {})).status
      = .pending ∧
    (retryTask (executorIter alwaysFailHandler 5 (BTask.max_retries {} + 1) {})).retry_count
      = BTask.max_retries {} + 1 :=
  C6_retry_bound alwaysFailHandler 5 {} (fun _ => ⟨"boom", rfl⟩) rfl rfl

/-! ### Helper lemmas for the reconciliation proofs -/

/-- get_or_create_uploader touches only the uploaders table. -/
theorem getOrCreateUploader_videos (cat : CatalogState) (mid name : String) :
    (getOrCreateUploader cat mid name).videos = cat.videos := by
  unfold getOrCreateUploader
  split <;> rfl

/-- get_or_create_uploader touches only the uploaders table. -/
theorem getOrCreateUploader_collection_videos (cat : CatalogState)
    (mid name : String) :
    (getOrCreateUploader cat mid name).collection_videos = cat.collection_videos := by
  unfold getOrCreateUploader
  split <;> rfl

/-- The cover download never changes a video's identity or availability and
never touches the membership table; it never touches videos_added,
videos_updated, videos_deleted or videos_restored. -/
theorem downloadCoverIfNeeded_spec (dl : String → String → Option String)
    (cat : CatalogState) (stats : SyncStats) (b u : String) :
    ((downloadCoverIfNeeded dl cat stats b u).1.videos.map
        (fun v => (v.bvid, v.is_deleted, v.deleted_at)) =
      cat.videos.map (fun v => (v.bvid, v.is_deleted, v.deleted_at))) ∧
    (downloadCoverIfNeeded dl cat stats b u).1.collection_videos
      = cat.collection_videos ∧
    (downloadCoverIfNeeded dl cat stats b u).2.videos_added
      = stats.videos_added ∧
    (downloadCoverIfNeeded dl cat stats b u).2.videos_updated
      = stats.videos_updated ∧
    (downloadCoverIfNeeded dl cat stats b u).2.videos_deleted
      = stats.videos_deleted ∧
    (downloadCoverIfNeeded dl cat stats b u).2.videos_restored
      = stats.videos_restored := by
  unfold downloadCoverIfNeeded
  cases cat.videos.find? (fun v => v.bvid == b) with
  | none => exact ⟨rfl, rfl, rfl, rfl, rfl, rfl⟩
  | some v =>
      simp only
      by_cases hc : v.local_cover_path.isSome
      · rw [if_pos hc]
        exact ⟨rfl, rfl, rfl, rfl, rfl, rfl⟩
      · rw [if_neg hc]
        cases dl b u with
        | none => exact ⟨rfl, rfl, rfl, rfl, rfl, rfl⟩
        | some path =>
            refine ⟨?_, rfl, rfl, rfl, rfl, rfl⟩
            simp only [List.map_map]
            apply List.map_congr_left
            intro w hw
            by_cases hb : w.bvid = b <;> simp [hb]

/-- The shared tail of _process_video_data preserves the identity and
availability of every video and the four reconciliation counters. -/
theorem postProcessVideo_spec (dl : String → String → Option String)
    (cat : CatalogState) (stats : SyncStats) (item : FetchedItem)
    (cid now : Nat) :
    ((postProcessVideo dl cat stats item cid now).1.videos.map
        (fun v => (v.bvid, v.is_deleted, v.deleted_at)) =
      cat.videos.map (fun v => (v.bvid, v.is_deleted, v.deleted_at))) ∧
    (postProcessVideo dl cat stats item cid now).2.videos_added
      = stats.videos_added ∧
    (postProcessVideo dl cat stats item cid now).2.videos_updated
      = stats.videos_updated ∧
    (postProcessVideo dl cat stats item cid now).2.videos_deleted
      = stats.videos_deleted ∧
    (postProcessVideo dl cat stats item cid now).2.videos_restored
      = stats.videos_restored := by
  simp only [postProcessVideo]
  have haddv : ∀ c : CatalogState, (addToCollection c cid item.bvid item.fav_time now).videos = c.videos := by
    intro c
    unfold addToCollection
    split <;> rfl
  by_cases hstat : item.cnt_info
  · rw [if_pos hstat]
    by_cases hcov : (!(itemIsDeleted item) && item.cover != "") = true
    · rw [if_pos hcov]
      have h := downloadCoverIfNeeded_spec dl
        { addToCollection cat cid item.bvid item.fav_time now with
          video_stats := (addToCollection cat cid item.bvid item.fav_time now).video_stats ++ [item.bvid] }
        stats item.bvid item.cover
      refine ⟨?_, h.2.2.1, h.2.2.2.1, h.2.2.2.2.1, h.2.2.2.2.2⟩
      rw [h.1]
      show (addToCollection cat cid item.bvid item.fav_time now).videos.map _ = _
      rw [haddv]
    · rw [if_neg hcov]
      refine ⟨?_, rfl, rfl, rfl, rfl⟩
      show (addToCollection cat cid item.bvid item.fav_time now).videos.map _ = _
      rw [haddv]
  · rw [if_neg hstat]
    by_cases hcov : (!(itemIsDeleted item) && item.cover != "") = true
    · rw [if_pos hcov]
      have h := downloadCoverIfNeeded_spec dl
        (addToCollection cat cid item.bvid item.fav_time now)
        stats item.bvid item.cover
      refine ⟨?_, h.2.2.1, h.2.2.2.1, h.2.2.2.2.1, h.2.2.2.2.2⟩
      rw [h.1, haddv]
    · rw [if_neg hcov]
      refine ⟨?_, rfl, rfl, rfl, rfl⟩
      rw [haddv]

/-- A catalog in which video B1 is an available member of both collection 1
and collection 2. -/
def twoCollectionCat : CatalogState :=
  { uploaders := [⟨"u1", "Alice"⟩],
    videos := [⟨"B1", "Foo", 0, "u1", false, none, none⟩],
    collection_videos := [⟨1, "B1", none, 0, 0⟩, ⟨2, "B1", none, 0, 0⟩] }

/-- C4 (counterexample): video B1 belongs to collections 1 and 2; when B1
disappears from collection 1's fresh fetch, the removal path marks B1
globally unavailable even though collection 2 still references it — the
claimed "if and only if no other collection still references it" fails
(there is no other-collection check anywhere in _mark_video_deleted or
video_dao.mark_as_deleted). -/
theorem C4_counterexample :
    ((reconcileRemoved twoCollectionCat {} "B1" 1 "C1" 9).1.collection_videos.any
      (fun m => m.collection_id == 2 && m.bvid == "B1")) = true ∧
    ((reconcileRemoved twoCollectionCat {} "B1" 1 "C1" 9).1.videos.any
      (fun v => v.bvid == "B1" && v.is_deleted)) = true ∧
    (reconcileRemoved twoCollectionCat {} "B1" 1 "C1" 9).2.videos_deleted = 1 := by
  decide

/-- C4 (amended): for a video present in the catalog but absent from the
fresh fetch, the removal path removes that collection's membership row
(leaving all other rows, including other collections', in place), appends a
deleted-video record naming the video and the collection, increments
stats.videos_deleted by 1, appends a deletion-log row — and marks the video
globally unavailable UNCONDITIONALLY, whether or not another collection
still references it. -/
theorem C4_removal_path (cat : CatalogState) (stats : SyncStats) (bvid : String)
    (cid : Nat) (ctitle : String) (now : Nat) (video : CatalogVideo)
    (hfind : cat.videos.find? (fun v => v.bvid == bvid) = some video) :
    (reconcileRemoved cat stats bvid cid ctitle now).2.videos_deleted
      = stats.videos_deleted + 1 ∧
    (reconcileRemoved cat stats bvid cid ctitle now).2.deleted_videos
      = stats.deleted_videos ++
        [⟨bvid, video.title, uploaderNameOf cat video.uploader_mid, ctitle, now⟩] ∧
    (reconcileRemoved cat stats bvid cid ctitle now).1.collection_videos
      = cat.collection_videos.filter
          (fun m => !(m.collection_id == cid && m.bvid == bvid)) ∧
    (∀ v ∈ (reconcileRemoved cat stats bvid cid ctitle now).1.videos,
      v.bvid = bvid → v.is_deleted = true ∧ v.deleted_at = some now) ∧
    (reconcileRemoved cat stats bvid cid ctitle now).1.deletion_logs
      = cat.deletion_logs ++
        [⟨cid, bvid, video.title, uploaderNameOf cat video.uploader_mid,
          "从B站收藏夹中移除"⟩] := by
  unfold reconcileRemoved markVideoDeleted
  rw [hfind]
  refine ⟨rfl, rfl, rfl, ?_, rfl⟩
  intro v hv hbv
  simp only [List.mem_map] at hv
  obtain ⟨w, hw, rfl⟩ := hv
  by_cases hb : w.bvid = bvid
  · simp [hb]
  · exfalso
    apply hb
    by_cases hbeq : (w.bvid == bvid) = true
    · exact beq_iff_eq.mp hbeq
    · rw [if_neg hbeq] at hbv
      exact hbv

/-- C4 witness: in the two-collection catalog, the removal of B1 from
collection 1 behaves exactly as C4_removal_path states. -/
theorem C4_removal_path_witness :
    (reconcileRemoved twoCollectionCat {} "B1" 1 "C1" 9).2.videos_deleted
      = SyncStats.videos_deleted {} + 1 ∧
    (reconcileRemoved twoCollectionCat {} "B1" 1 "C1" 9).2.deleted_videos
      = SyncStats.deleted_videos {} ++
        [⟨"B1", CatalogVideo.title ⟨"B1", "Foo", 0, "u1", false, none, none⟩,
          uploaderNameOf twoCollectionCat
            (CatalogVideo.uploader_mid ⟨"B1", "Foo", 0, "u1", false, none, none⟩),
          "C1", 9⟩] ∧
    (reconcileRemoved twoCollectionCat {} "B1" 1 "C1" 9).1.collection_videos
      = twoCollectionCat.collection_videos.filter
          (fun m => !(m.collection_id == 1 && m.bvid == "B1")) ∧
    (∀ v ∈ (reconcileRemoved twoCollectionCat {} "B1" 1 "C1" 9).1.videos,
      v.bvid = "B1" → v.is_deleted = true ∧ v.deleted_at = some 9) ∧
    (reconcileRemoved twoCollectionCat {} "B1" 1 "C1" 9).1.deletion_logs
      = twoCollectionCat.deletion_logs ++
        [⟨1, "B1", CatalogVideo.title ⟨"B1", "Foo", 0, "u1", false, none, none⟩,
          uploaderNameOf twoCollectionCat
            (CatalogVideo.uploader_mid ⟨"B1", "Foo", 0, "u1", false, none, none⟩),
          "从B站收藏夹中移除"⟩] :=
  C4_removal_path twoCollectionCat {} "B1" 1 "C1" 9
    ⟨"B1", "Foo", 0, "u1", false, none, none⟩ (by decide)


/-- If every video of the catalog with a given bvid carries given
availability fields, the same holds after the shared tail of
_process_video_data (which never changes identity or availability). -/
theorem postProcessVideo_video_flag (dl : String → String → Option String)
    (cat : CatalogState) (stats : SyncStats) (item : FetchedItem)
    (cid now : Nat) (b : String) (d : Bool) (a : Option Nat)
    (hall : ∀ w ∈ cat.videos, w.bvid = b → w.is_deleted = d ∧ w.deleted_at = a) :
    ∀ v ∈ (postProcessVideo dl cat stats item cid now).1.videos,
      v.bvid = b → v.is_deleted = d ∧ v.deleted_at = a := by
  intro v hv hvb
  have hproj := (postProcessVideo_spec dl cat stats item cid now).1
  have hmem : (v.bvid, v.is_deleted, v.deleted_at) ∈
      (postProcessVideo dl cat stats item cid now).1.videos.map
        (fun v => (v.bvid, v.is_deleted, v.deleted_at)) :=
    List.mem_map_of_mem _ hv
  rw [hproj] at hmem
  obtain ⟨w, hw, hweq⟩ := List.mem_map.mp hmem
  simp only [Prod.mk.injEq] at hweq
  obtain ⟨hb, hd, ha⟩ := hweq
  obtain ⟨hwd, hwa⟩ := hall w hw (hb.trans hvb)
  exact ⟨hd ▸ hwd, ha ▸ hwa⟩

/-- C5 (amended): on an available-to-unavailable sentinel transition the
video is updated to unavailable with deletedAt set to the current time, and
on an unavailable-to-available transition it is flipped back to available
with deletedAt cleared — but in BOTH cases the engine increments
stats.videos_updated; stats.videos_deleted and stats.videos_restored are not
touched by the sentinel path. -/
theorem C5_sentinel_transitions (dl : String → String → Option String)
    (cat : CatalogState) (stats : SyncStats) (item : FetchedItem)
    (cid now : Nat) (ex : CatalogVideo)
    (hfind : cat.videos.find? (fun v => v.bvid == item.bvid) = some ex) :
    (ex.is_deleted = false → itemIsDeleted item = true →
      (processVideoData dl (cat, stats) item cid now).2.videos_updated
        = stats.videos_updated + 1 ∧
      (processVideoData dl (cat, stats) item cid now).2.videos_deleted
        = stats.videos_deleted ∧
      (processVideoData dl (cat, stats) item cid now).2.videos_restored
        = stats.videos_restored ∧
      (∀ v ∈ (processVideoData dl (cat, stats) item cid now).1.videos,
        v.bvid = item.bvid → v.is_deleted = true ∧ v.deleted_at = some now)) ∧
    (ex.is_deleted = true → itemIsDeleted item = false →
      (processVideoData dl (cat, stats) item cid now).2.videos_updated
        = stats.videos_updated + 1 ∧
      (processVideoData dl (cat, stats) item cid now).2.videos_deleted
        = stats.videos_deleted ∧
      (processVideoData dl (cat, stats) item cid now).2.videos_restored
        = stats.videos_restored ∧
      (∀ v ∈ (processVideoData dl (cat, stats) item cid now).1.videos,
        v.bvid = item.bvid → v.is_deleted = false ∧ v.deleted_at = none)) := by
  have hfind2 : (getOrCreateUploader cat item.uploader_mid item.uploader_name).videos.find?
      (fun v => v.bvid == item.bvid) = some ex := by
    rw [getOrCreateUploader_videos]
    exact hfind
  constructor
  · intro hex hdel
    simp only [processVideoData, updateFields, hfind2, hex, hdel, Bool.not_false,
      Bool.true_and, if_true]
    refine ⟨(postProcessVideo_spec dl _ _ item cid now).2.2.1,
      (postProcessVideo_spec dl _ _ item cid now).2.2.2.1,
      (postProcessVideo_spec dl _ _ item cid now).2.2.2.2,
      ?_⟩
    apply postProcessVideo_video_flag
    intro w hw hwb
    simp only [List.mem_map] at hw
    obtain ⟨w0, hw0, rfl⟩ := hw
    by_cases h0 : (w0.bvid == item.bvid) = true
    · rw [if_pos h0]
      exact ⟨rfl, rfl⟩
    · rw [if_neg h0] at hwb
      exact absurd (beq_iff_eq.mpr hwb) h0
  · intro hex hdel
    simp only [processVideoData, updateFields, hfind2, hex, hdel, Bool.not_true,
      Bool.false_and, Bool.not_false, Bool.true_and, if_false, if_true,
      Bool.false_eq_true]
    refine ⟨(postProcessVideo_spec dl _ _ item cid now).2.2.1,
      (postProcessVideo_spec dl _ _ item cid now).2.2.2.1,
      (postProcessVideo_spec dl _ _ item cid now).2.2.2.2,
      ?_⟩
    apply postProcessVideo_video_flag
    intro w hw hwb
    simp only [List.mem_map] at hw
    obtain ⟨w0, hw0, rfl⟩ := hw
    by_cases h0 : (w0.bvid == item.bvid) = true
    · rw [if_pos h0]
      exact ⟨rfl, rfl⟩
    · rw [if_neg h0] at hwb
      exact absurd (beq_iff_eq.mpr hwb) h0

/-- A catalog in which video B1 is available and belongs to collection 1. -/
def availBCat : CatalogState :=
  { uploaders := [⟨"u1", "Alice"⟩],
    videos := [⟨"B1", "Foo", 0, "u1", false, none, none⟩],
    collection_videos := [⟨1, "B1", none, 0, 0⟩] }

/-- A fetched item carrying the unavailability sentinel title for B1. -/
def sentinelB1Item : FetchedItem :=
  { bvid := "B1", title := "已失效视频", attr := 0, uploader_mid := "u1",
    uploader_name := "Alice", fav_time := none, cover := "", cnt_info := false }

/-- C5 (counterexample): a fetched item with the sentinel title for an
identity recorded as available flips the video to unavailable and stamps
deletedAt — but stats.videos_deleted stays 0 (videos_updated is incremented
instead), contradicting the claimed videos_deleted increment. -/
theorem C5_counterexample :
    (processVideoData (fun _ _ => none) (availBCat, {}) sentinelB1Item 1 9).2.videos_deleted
      = 0 ∧
    (processVideoData (fun _ _ => none) (availBCat, {}) sentinelB1Item 1 9).2.videos_updated
      = 1 ∧
    ((processVideoData (fun _ _ => none) (availBCat, {}) sentinelB1Item 1 9).1.videos.any
      (fun v => v.bvid == "B1" && v.is_deleted && v.deleted_at == some 9)) = true := by
  decide

/-- C5 witness. -/
theorem C5_sentinel_transitions_witness :
    (CatalogVideo.is_deleted ⟨"B1", "Foo", 0, "u1", false, none, none⟩ = false →
      itemIsDeleted sentinelB1Item = true →
      (processVideoData (fun _ _ => none) (availBCat, {}) sentinelB1Item 1 9).2.videos_updated
        = SyncStats.videos_updated {} + 1 ∧
      (processVideoData (fun _ _ => none) (availBCat, {}) sentinelB1Item 1 9).2.videos_deleted
        = SyncStats.videos_deleted {} ∧
      (processVideoData (fun _ _ => none) (availBCat, {}) sentinelB1Item 1 9).2.videos_restored
        = SyncStats.videos_restored {} ∧
      (∀ v ∈ (processVideoData (fun _ _ => none) (availBCat, {}) sentinelB1Item 1 9).1.videos,
        v.bvid = sentinelB1Item.bvid → v.is_deleted = true ∧ v.deleted_at = some 9)) ∧
    (CatalogVideo.is_deleted ⟨"B1", "Foo", 0, "u1", false, none, none⟩ = true →
      itemIsDeleted sentinelB1Item = false →
      (processVideoData (fun _ _ => none) (availBCat, {}) sentinelB1Item 1 9).2.videos_updated
        = SyncStats.videos_updated {} + 1 ∧
      (processVideoData (fun _ _ => none) (availBCat, {}) sentinelB1Item 1 9).2.videos_deleted
        = SyncStats.videos_deleted {} ∧
      (processVideoData (fun _ _ => none) (availBCat, {}) sentinelB1Item 1 9).2.videos_restored
        = SyncStats.videos_restored {} ∧
      (∀ v ∈ (processVideoData (fun _ _ => none) (availBCat, {}) sentinelB1Item 1 9).1.videos,
        v.bvid = sentinelB1Item.bvid → v.is_deleted = false ∧ v.deleted_at = none)) :=
  C5_sentinel_transitions (fun _ _ => none) availBCat {} sentinelB1Item 1 9
    ⟨"B1", "Foo", 0, "u1", false, none, none⟩ (by decide)

theorem hasId_append (l1 l2 : List ProcessCollection) (i : Nat) :
    hasId (l1 ++ l2) i = (hasId l1 i || hasId l2 i) :=
  List.any_append

theorem failedHasId_append (l1 l2 : List FailedInfo) (i : Nat) :
    failedHasId (l1 ++ l2) i = (failedHasId l1 i || failedHasId l2 i) :=
  List.any_append

theorem hasId_filter_self (l : List ProcessCollection) (cid : Nat) :
    hasId (l.filter (fun c => c.id != cid)) cid = false := by
  simp only [hasId, List.any_eq_false]
  intro c hc
  rw [List.mem_filter] at hc
  simpa using hc.2

theorem hasId_filter_of_ne (l : List ProcessCollection) (cid i : Nat)
    (hne : i ≠ cid) :
    hasId (l.filter (fun c => c.id != cid)) i = hasId l i := by
  induction l with
  | nil => rfl
  | cons c rest ih =>
      by_cases hc : c.id = cid
      · have h1 : (c.id != cid) = false := by simp [hc]
        have h2 : (c.id == i) = false := by
          simp only [beq_eq_false_iff_ne, ne_eq, hc]
          exact fun h => hne h.symm
        simp [hasId, List.filter_cons, h1, h2] at ih ⊢
        exact ih
      · have h1 : (c.id != cid) = true := by simp [hc]
        simp [hasId, List.filter_cons, h1] at ih ⊢
        rw [ih]

theorem clearCurrentIfMatches_lists (ctx : SyncCtx) (cid : Nat) :
    (clearCurrentIfMatches ctx cid).collections_to_process
      = ctx.collections_to_process ∧
    (clearCurrentIfMatches ctx cid).fetched_collections
      = ctx.fetched_collections ∧
    (clearCurrentIfMatches ctx cid).processed_collections
      = ctx.processed_collections ∧
    (clearCurrentIfMatches ctx cid).downloaded_collections
      = ctx.downloaded_collections ∧
    (clearCurrentIfMatches ctx cid).failed_collections
      = ctx.failed_collections := by
  cases hcur : ctx.current_collection with
  | none => simp [clearCurrentIfMatches, hcur]
  | some cur =>
      simp only [clearCurrentIfMatches, hcur]
      by_cases h : (cur.id == cid) = true
      · rw [if_pos h]
        exact ⟨rfl, rfl, rfl, rfl, rfl⟩
      · rw [if_neg h]
        exact ⟨rfl, rfl, rfl, rfl, rfl⟩

theorem clearCurrentIfMatches_current (ctx : SyncCtx) (cid : Nat)
    (cur : ProcessCollection)
    (h : (clearCurrentIfMatches ctx cid).current_collection = some cur) :
    ctx.current_collection = some cur ∧ cur.id ≠ cid := by
  cases hcur : ctx.current_collection with
  | none =>
      have hcc : clearCurrentIfMatches ctx cid = ctx := by
        simp [clearCurrentIfMatches, hcur]
      rw [hcc, hcur] at h
      cases h
  | some c =>
      simp only [clearCurrentIfMatches, hcur] at h
      by_cases hc : (c.id == cid) = true
      · rw [if_pos hc] at h
        cases h
      · rw [if_neg hc, hcur] at h
        cases h
        exact ⟨rfl, by simpa using hc⟩

theorem inStagesOrFailed_eq (ctx : SyncCtx) (i : Nat) :
    inStagesOrFailed ctx i =
      (hasId ctx.collections_to_process i || hasId ctx.fetched_collections i ||
       hasId ctx.processed_collections i || hasId ctx.downloaded_collections i ||
       failedHasId ctx.failed_collections i) := rfl

theorem markFetched_lists_some (ctx : SyncCtx) (cid : Nat)
    (c : ProcessCollection)
    (hf : ctx.collections_to_process.find? (fun x => x.id == cid) = some c) :
    (markCollectionDataFetched ctx cid).collections_to_process
      = ctx.collections_to_process.filter (fun x => x.id != cid) ∧
    (markCollectionDataFetched ctx cid).fetched_collections
      = ctx.fetched_collections ++ [c] ∧
    (markCollectionDataFetched ctx cid).processed_collections
      = ctx.processed_collections ∧
    (markCollectionDataFetched ctx cid).downloaded_collections
      = ctx.downloaded_collections ∧
    (markCollectionDataFetched ctx cid).failed_collections
      = ctx.failed_collections := by
  simp only [markCollectionDataFetched, hf]
  exact clearCurrentIfMatches_lists _ _

theorem markFetched_current (ctx : SyncCtx) (cid : Nat)
    (cur : ProcessCollection)
    (h : (markCollectionDataFetched ctx cid).current_collection = some cur) :
    ctx.current_collection = some cur ∧ cur.id ≠ cid := by
  unfold markCollectionDataFetched at h
  dsimp only at h
  cases hf : ctx.collections_to_process.find? (fun c => c.id == cid) with
  | some c =>
      rw [hf] at h
      have h2 := clearCurrentIfMatches_current _ _ _ h
      exact ⟨h2.1, h2.2⟩
  | none =>
      rw [hf] at h
      have h2 := clearCurrentIfMatches_current _ _ _ h
      exact ⟨h2.1, h2.2⟩

theorem markCompleted_lists (ctx : SyncCtx) (c : ProcessCollection) :
    (markCollectionCompleted ctx c).collections_to_process
      = ctx.collections_to_process ∧
    (markCollectionCompleted ctx c).fetched_collections
      = ctx.fetched_collections.filter (fun x => x.id != c.id) ∧
    (markCollectionCompleted ctx c).processed_collections
      = (if ctx.processed_collections.any (fun p => p.id == c.id) then
          ctx.processed_collections
        else ctx.processed_collections ++ [c]) ∧
    (markCollectionCompleted ctx c).downloaded_collections
      = ctx.downloaded_collections ∧
    (markCollectionCompleted ctx c).failed_collections
      = ctx.failed_collections := by
  simp only [markCollectionCompleted]
  exact clearCurrentIfMatches_lists _ _

theorem markCompleted_current (ctx : SyncCtx) (c : ProcessCollection)
    (cur : ProcessCollection)
    (h : (markCollectionCompleted ctx c).current_collection = some cur) :
    ctx.current_collection = some cur ∧ cur.id ≠ c.id := by
  unfold markCollectionCompleted at h
  dsimp only at h
  have h2 := clearCurrentIfMatches_current _ _ _ h
  exact ⟨h2.1, h2.2⟩

theorem markDownloaded_lists (ctx : SyncCtx) (c : ProcessCollection) :
    (markCollectionDownloaded ctx c).collections_to_process
      = ctx.collections_to_process ∧
    (markCollectionDownloaded ctx c).fetched_collections
      = ctx.fetched_collections ∧
    (markCollectionDownloaded ctx c).processed_collections
      = ctx.processed_collections.filter (fun x => x.id != c.id) ∧
    (markCollectionDownloaded ctx c).downloaded_collections
      = (if ctx.downloaded_collections.any (fun p => p.id == c.id) then
          ctx.downloaded_collections
        else ctx.downloaded_collections ++ [c]) ∧
    (markCollectionDownloaded ctx c).failed_collections
      = ctx.failed_collections := by
  simp only [markCollectionDownloaded]
  exact clearCurrentIfMatches_lists _ _

theorem markDownloaded_current (ctx : SyncCtx) (c : ProcessCollection)
    (cur : ProcessCollection)
    (h : (markCollectionDownloaded ctx c).current_collection = some cur) :
    ctx.current_collection = some cur ∧ cur.id ≠ c.id := by
  unfold markCollectionDownloaded at h
  dsimp only at h
  have h2 := clearCurrentIfMatches_current _ _ _ h
  exact ⟨h2.1, h2.2⟩

theorem markFailed_lists (ctx : SyncCtx) (c : ProcessCollection) (e : String)
    (now : Nat) :
    (markCollectionFailed ctx c e now).collections_to_process
      = ctx.collections_to_process.filter (fun x => x.id != c.id) ∧
    (markCollectionFailed ctx c e now).fetched_collections
      = ctx.fetched_collections.filter (fun x => x.id != c.id) ∧
    (markCollectionFailed ctx c e now).processed_collections
      = ctx.processed_collections.filter (fun x => x.id != c.id) ∧
    (markCollectionFailed ctx c e now).downloaded_collections
      = ctx.downloaded_collections.filter (fun x => x.id != c.id) ∧
    (markCollectionFailed ctx c e now).failed_collections
      = ctx.failed_collections ++ [⟨c, e, now⟩] := by
  simp only [markCollectionFailed]
  exact clearCurrentIfMatches_lists _ _

theorem markFailed_current (ctx : SyncCtx) (c : ProcessCollection) (e : String)
    (now : Nat) (cur : ProcessCollection)
    (h : (markCollectionFailed ctx c e now).current_collection = some cur) :
    ctx.current_collection = some cur ∧ cur.id ≠ c.id := by
  unfold markCollectionFailed at h
  dsimp only at h
  have h2 := clearCurrentIfMatches_current _ _ _ h
  exact ⟨h2.1, h2.2⟩

theorem hasId_singleton (c : ProcessCollection) (i : Nat) :
    hasId [c] i = (c.id == i) := by
  simp [hasId]

/-- The checkpoint invariant carried through guarded transition sequences:
disjointness of the five membership lists, id-preservation of their union
against the original collection list, and coverage of the cursor by the
stage lists. -/
def InvAux (cols : List ProcessCollection) (ctx : SyncCtx) : Prop :=
  (∀ i, memberCount ctx i ≤ 1) ∧
  (∀ i, inStagesOrFailed ctx i = hasId cols i) ∧
  (∀ cur, ctx.current_collection = some cur → inStagesOrFailed ctx cur.id = true)

theorem InvAux_markFetched (cols : List ProcessCollection) (ctx : SyncCtx)
    (cid : Nat) (hg : hasId ctx.collections_to_process cid = true)
    (hInv : InvAux cols ctx) :
    InvAux cols (markCollectionDataFetched ctx cid) := by
  obtain ⟨hd, hu, hc⟩ := hInv
  obtain ⟨c, hf⟩ : ∃ c, ctx.collections_to_process.find? (fun c => c.id == cid) = some c := by
    rw [← Option.isSome_iff_exists, List.find?_isSome]
    simpa [hasId, List.any_eq_true] using hg
  have hcid : c.id = cid := by
    have := List.find?_some hf
    simpa using this
  obtain ⟨h1, h2, h3, h4, h5⟩ := markFetched_lists_some ctx cid c hf
  have hne : ∀ i, i ≠ cid →
      inStagesOrFailed (markCollectionDataFetched ctx cid) i
        = inStagesOrFailed ctx i := by
    intro i hi
    unfold inStagesOrFailed
    rw [h1, h2, h3, h4, h5, hasId_append, hasId_singleton, hcid,
      hasId_filter_of_ne _ _ _ hi]
    have : (cid == i) = false := by
      simp only [beq_eq_false_iff_ne, ne_eq]
      exact fun h => hi h.symm
    rw [this, Bool.or_false]
  refine ⟨?_, ?_, ?_⟩
  · intro i
    have hold := hd i
    unfold memberCount at hold ⊢
    rw [h1, h2, h3, h4, h5, hasId_append, hasId_singleton, hcid]
    by_cases hi : i = cid
    · subst hi
      rw [hasId_filter_self, beq_self_eq_true, Bool.or_true]
      rw [hg] at hold
      simp only [Bool.toNat_false, Bool.toNat_true] at hold ⊢
      omega
    · have : (cid == i) = false := by
        simp only [beq_eq_false_iff_ne, ne_eq]
        exact fun h => hi h.symm
      rw [this, Bool.or_false, hasId_filter_of_ne _ _ _ hi]
      omega
  · intro i
    by_cases hi : i = cid
    · subst hi
      rw [← hu i]
      unfold inStagesOrFailed
      rw [h1, h2, h3, h4, h5, hasId_append, hasId_singleton, hcid,
        hasId_filter_self, beq_self_eq_true, Bool.or_true, hg]
      simp
    · rw [hne i hi]
      exact hu i
  · intro cur hcur
    obtain ⟨hcc, hcne⟩ := markFetched_current ctx cid cur hcur
    rw [hne cur.id hcne]
    exact hc cur hcc

theorem failedHasId_singleton (c : ProcessCollection) (e : String) (now i : Nat) :
    failedHasId [⟨c, e, now⟩] i = (c.id == i) := by
  simp [failedHasId]

theorem InvAux_markCompleted (cols : List ProcessCollection) (ctx : SyncCtx)
    (c : ProcessCollection) (hg : hasId ctx.fetched_collections c.id = true)
    (hInv : InvAux cols ctx) :
    InvAux cols (markCollectionCompleted ctx c) := by
  obtain ⟨hd, hu, hc⟩ := hInv
  have hpf : (ctx.processed_collections.any fun p => p.id == c.id) = false := by
    have hold := hd c.id
    unfold memberCount at hold
    rw [hg] at hold
    cases h : hasId ctx.processed_collections c.id with
    | false => exact h
    | true =>
        rw [h] at hold
        simp only [Bool.toNat_true] at hold
        omega
  obtain ⟨h1, h2, h3, h4, h5⟩ := markCompleted_lists ctx c
  rw [hpf, if_neg (by simp)] at h3
  have hne : ∀ i, i ≠ c.id →
      inStagesOrFailed (markCollectionCompleted ctx c) i
        = inStagesOrFailed ctx i := by
    intro i hi
    unfold inStagesOrFailed
    rw [h1, h2, h3, h4, h5, hasId_append, hasId_singleton,
      hasId_filter_of_ne _ _ _ hi]
    have : (c.id == i) = false := by
      simp only [beq_eq_false_iff_ne, ne_eq]
      exact fun h => hi h.symm
    rw [this, Bool.or_false]
  refine ⟨?_, ?_, ?_⟩
  · intro i
    have hold := hd i
    unfold memberCount at hold ⊢
    rw [h1, h2, h3, h4, h5, hasId_append, hasId_singleton]
    by_cases hi : i = c.id
    · subst hi
      rw [hasId_filter_self, beq_self_eq_true, Bool.or_true]
      rw [hg] at hold
      simp only [Bool.toNat_false, Bool.toNat_true] at hold ⊢
      omega
    · have : (c.id == i) = false := by
        simp only [beq_eq_false_iff_ne, ne_eq]
        exact fun h => hi h.symm
      rw [this, Bool.or_false, hasId_filter_of_ne _ _ _ hi]
      omega
  · intro i
    by_cases hi : i = c.id
    · subst hi
      rw [← hu c.id]
      unfold inStagesOrFailed
      rw [h1, h2, h3, h4, h5, hasId_append, hasId_singleton,
        hasId_filter_self, beq_self_eq_true, Bool.or_true, hg]
      simp
    · rw [hne i hi]
      exact hu i
  · intro cur hcur
    obtain ⟨hcc, hcne⟩ := markCompleted_current ctx c cur hcur
    rw [hne cur.id hcne]
    exact hc cur hcc

theorem InvAux_markDownloaded (cols : List ProcessCollection) (ctx : SyncCtx)
    (c : ProcessCollection) (hg : hasId ctx.processed_collections c.id = true)
    (hInv : InvAux cols ctx) :
    InvAux cols (markCollectionDownloaded ctx c) := by
  obtain ⟨hd, hu, hc⟩ := hInv
  have hpf : (ctx.downloaded_collections.any fun p => p.id == c.id) = false := by
    have hold := hd c.id
    unfold memberCount at hold
    rw [hg] at hold
    cases h : hasId ctx.downloaded_collections c.id with
    | false => exact h
    | true =>
        rw [h] at hold
        simp only [Bool.toNat_true] at hold
        omega
  obtain ⟨h1, h2, h3, h4, h5⟩ := markDownloaded_lists ctx c
  rw [hpf, if_neg (by simp)] at h4
  have hne : ∀ i, i ≠ c.id →
      inStagesOrFailed (markCollectionDownloaded ctx c) i
        = inStagesOrFailed ctx i := by
    intro i hi
    unfold inStagesOrFailed
    rw [h1, h2, h3, h4, h5, hasId_append, hasId_singleton,
      hasId_filter_of_ne _ _ _ hi]
    have : (c.id == i) = false := by
      simp only [beq_eq_false_iff_ne, ne_eq]
      exact fun h => hi h.symm
    rw [this, Bool.or_false]
  refine ⟨?_, ?_, ?_⟩
  · intro i
    have hold := hd i
    unfold memberCount at hold ⊢
    rw [h1, h2, h3, h4, h5, hasId_append, hasId_singleton]
    by_cases hi : i = c.id
    · subst hi
      rw [hasId_filter_self, beq_self_eq_true, Bool.or_true]
      rw [hg] at hold
      simp only [Bool.toNat_false, Bool.toNat_true] at hold ⊢
      omega
    · have : (c.id == i) = false := by
        simp only [beq_eq_false_iff_ne, ne_eq]
        exact fun h => hi h.symm
      rw [this, Bool.or_false, hasId_filter_of_ne _ _ _ hi]
      omega
  · intro i
    by_cases hi : i = c.id
    · subst hi
      rw [← hu c.id]
      unfold inStagesOrFailed
      rw [h1, h2, h3, h4, h5, hasId_append, hasId_singleton,
        hasId_filter_self, beq_self_eq_true, Bool.or_true, hg]
      simp
    · rw [hne i hi]
      exact hu i
  · intro cur hcur
    obtain ⟨hcc, hcne⟩ := markDownloaded_current ctx c cur hcur
    rw [hne cur.id hcne]
    exact hc cur hcc

theorem InvAux_setCurrent (cols : List ProcessCollection) (ctx : SyncCtx)
    (c : ProcessCollection) (page : Nat)
    (hg : hasId ctx.collections_to_process c.id = true)
    (hInv : InvAux cols ctx) :
    InvAux cols (setCurrentCollection ctx c page) := by
  obtain ⟨hd, hu, hc⟩ := hInv
  refine ⟨fun i => hd i, fun i => hu i, ?_⟩
  intro cur hcur
  have hceq : c = cur := by
    have h2 : some c = some cur := hcur
    injection h2
  subst hceq
  show inStagesOrFailed ctx c.id = true
  unfold inStagesOrFailed
  rw [hg]
  simp

theorem InvAux_markFailed (cols : List ProcessCollection) (ctx : SyncCtx)
    (c : ProcessCollection) (e : String) (now : Nat)
    (hg : inStagesFailedOrCurrent ctx c.id = true)
    (hInv : InvAux cols ctx) :
    InvAux cols (markCollectionFailed ctx c e now) := by
  obtain ⟨hd, hu, hc⟩ := hInv
  have hstage : inStagesOrFailed ctx c.id = true := by
    cases hor : inStagesOrFailed ctx c.id with
    | true => rfl
    | false =>
        unfold inStagesFailedOrCurrent at hg
        rw [hor, Bool.false_or] at hg
        cases hcur : ctx.current_collection with
        | none => rw [hcur] at hg; simp at hg
        | some cur =>
            rw [hcur] at hg
            simp only at hg
            have h2 := hc cur hcur
            rw [beq_iff_eq.mp hg] at h2
            rw [hor] at h2
            exact h2
  obtain ⟨h1, h2, h3, h4, h5⟩ := markFailed_lists ctx c e now
  have hne : ∀ i, i ≠ c.id →
      inStagesOrFailed (markCollectionFailed ctx c e now) i
        = inStagesOrFailed ctx i := by
    intro i hi
    unfold inStagesOrFailed
    rw [h1, h2, h3, h4, h5, failedHasId_append, failedHasId_singleton,
      hasId_filter_of_ne _ _ _ hi, hasId_filter_of_ne _ _ _ hi,
      hasId_filter_of_ne _ _ _ hi, hasId_filter_of_ne _ _ _ hi]
    have : (c.id == i) = false := by
      simp only [beq_eq_false_iff_ne, ne_eq]
      exact fun h => hi h.symm
    rw [this, Bool.or_false]
  refine ⟨?_, ?_, ?_⟩
  · intro i
    have hold := hd i
    unfold memberCount at hold ⊢
    rw [h1, h2, h3, h4, h5, failedHasId_append, failedHasId_singleton]
    by_cases hi : i = c.id
    · subst hi
      rw [hasId_filter_self, hasId_filter_self, hasId_filter_self,
        hasId_filter_self, beq_self_eq_true, Bool.or_true]
      simp only [Bool.toNat_false, Bool.toNat_true]
      omega
    · have : (c.id == i) = false := by
        simp only [beq_eq_false_iff_ne, ne_eq]
        exact fun h => hi h.symm
      rw [this, Bool.or_false, hasId_filter_of_ne _ _ _ hi,
        hasId_filter_of_ne _ _ _ hi, hasId_filter_of_ne _ _ _ hi,
        hasId_filter_of_ne _ _ _ hi]
      omega
  · intro i
    by_cases hi : i = c.id
    · subst hi
      have hnew : inStagesOrFailed (markCollectionFailed ctx c e now) c.id
          = true := by
        unfold inStagesOrFailed
        rw [h5, failedHasId_append, failedHasId_singleton]
        simp
      rw [hnew, ← hu c.id, hstage]
    · rw [hne i hi]
      exact hu i
  · intro cur hcur
    obtain ⟨hcc, hcne⟩ := markFailed_current ctx c e now cur hcur
    rw [hne cur.id hcne]
    exact hc cur hcc

theorem InvAux_applyOp (cols : List ProcessCollection) (ctx : SyncCtx)
    (op : SyncOp) (hg : guardOk ctx op = true) (hInv : InvAux cols ctx) :
    InvAux cols (applyOp ctx op) := by
  cases op with
  | setCurrent c page => exact InvAux_setCurrent cols ctx c page hg hInv
  | markFetched cid => exact InvAux_markFetched cols ctx cid hg hInv
  | markCompleted c => exact InvAux_markCompleted cols ctx c hg hInv
  | markDownloaded c => exact InvAux_markDownloaded cols ctx c hg hInv
  | markFailed c e now => exact InvAux_markFailed cols ctx c e now hg hInv

theorem applyOpsGuarded_inv (cols : List ProcessCollection) :
    ∀ (ops : List SyncOp) (ctx ctx2 : SyncCtx),
      applyOpsGuarded ctx ops = some ctx2 → InvAux cols ctx → InvAux cols ctx2 := by
  intro ops
  induction ops with
  | nil =>
      intro ctx ctx2 h hi
      injection h with h2
      exact h2 ▸ hi
  | cons op rest ih =>
      intro ctx ctx2 h hi
      unfold applyOpsGuarded at h
      by_cases hg : guardOk ctx op = true
      · rw [if_pos hg] at h
        exact ih _ ctx2 h (InvAux_applyOp cols ctx op hg hi)
      · rw [if_neg hg] at h
        cases h

theorem InvAux_initial (cols : List ProcessCollection) :
    InvAux cols (initialCtx cols) := by
  refine ⟨?_, ?_, ?_⟩
  · intro i
    show (hasId cols i).toNat + (hasId [] i).toNat + (hasId [] i).toNat
        + (hasId [] i).toNat + (failedHasId [] i).toNat ≤ 1
    cases h : hasId cols i <;> simp [h, hasId, failedHasId]
  · intro i
    show (hasId cols i || hasId [] i || hasId [] i || hasId [] i
        || failedHasId [] i) = hasId cols i
    simp [hasId, failedHasId]
  · intro cur h
    have h2 : (none : Option ProcessCollection) = some cur := h
    cases h2

/-- C3 (counterexample): the claim quantifies over ANY sequence of the
membership-transition operations; from the initial state with collection 1
in toFetch, the single call mark_collection_completed(collection 1) appends
it to processed_collections while leaving it in collections_to_process (the
method only removes from fetched_collections), so after this checkpoint save
the id occurs in two stage sets at once. -/
theorem C3_counterexample :
    memberCount
      (applyOps (initialCtx [⟨1, "fav"⟩]) [.markCompleted ⟨1, "fav"⟩]) 1 = 2 ∧
    hasId (applyOps (initialCtx [⟨1, "fav"⟩])
      [.markCompleted ⟨1, "fav"⟩]).collections_to_process 1 = true ∧
    hasId (applyOps (initialCtx [⟨1, "fav"⟩])
      [.markCompleted ⟨1, "fav"⟩]).processed_collections 1 = true := by
  decide

/-- C3 (amended): the disjointness and union invariants hold at every
checkpoint save reachable by sequences of membership transitions that
respect the orchestrator's call discipline (each transition applied only to
a collection currently in the stage it moves from, the cursor only set to a
collection of toFetch, failures only for still-tracked collections): every
collection id then occurs in at most one of the four stage sets and the
failed list, and the stage sets, failed list and cursor together carry
exactly the ids of the original collection list.  Unrestricted sequences do
NOT preserve the invariant (see the counterexample). -/
theorem C3_stage_invariant (cols : List ProcessCollection) (ops : List SyncOp)
    (ctx2 : SyncCtx)
    (h : applyOpsGuarded (initialCtx cols) ops = some ctx2) :
    (∀ i, memberCount ctx2 i ≤ 1) ∧
    (∀ i, inStagesFailedOrCurrent ctx2 i = hasId cols i) := by
  have hinv := applyOpsGuarded_inv cols ops (initialCtx cols) ctx2 h
    (InvAux_initial cols)
  obtain ⟨hd, hu, hc⟩ := hinv
  refine ⟨hd, ?_⟩
  intro i
  unfold inStagesFailedOrCurrent
  cases hcur : ctx2.current_collection with
  | none =>
      show (inStagesOrFailed ctx2 i || false) = hasId cols i
      rw [Bool.or_false]
      exact hu i
  | some cur =>
      by_cases hci : cur.id = i
      · subst hci
        have h2 := hc cur hcur
        show (inStagesOrFailed ctx2 cur.id || (cur.id == cur.id))
            = hasId cols cur.id
        rw [h2, ← hu cur.id, h2]
        simp
      · show (inStagesOrFailed ctx2 i || (cur.id == i)) = hasId cols i
        have : (cur.id == i) = false := by simp [hci]
        rw [this, Bool.or_false]
        exact hu i


/-- C3 witness: a guarded run over two collections (one completed, one
failed) satisfies both invariants. -/
theorem C3_stage_invariant_witness :
    (∀ i, memberCount
      { status := "initializing",
        processed_collections := [⟨1, "a"⟩],
        failed_collections := [⟨⟨2, "b"⟩, "boom", 7⟩],
        stats := { collections_processed := 1, errors := ["收藏夹 b: boom"] } }
      i ≤ 1) ∧
    (∀ i, inStagesFailedOrCurrent
      { status := "initializing",
        processed_collections := [⟨1, "a"⟩],
        failed_collections := [⟨⟨2, "b"⟩, "boom", 7⟩],
        stats := { collections_processed := 1, errors := ["收藏夹 b: boom"] } }
      i = hasId [⟨1, "a"⟩, ⟨2, "b"⟩] i) :=
  C3_stage_invariant [⟨1, "a"⟩, ⟨2, "b"⟩]
    [.setCurrent ⟨1, "a"⟩ 1, .markFetched 1, .markCompleted ⟨1, "a"⟩,
     .markFailed ⟨2, "b"⟩ "boom" 7]
    { status := "initializing",
      processed_collections := [⟨1, "a"⟩],
      failed_collections := [⟨⟨2, "b"⟩, "boom", 7⟩],
      stats := { collections_processed := 1, errors := ["收藏夹 b: boom"] } }
    (by decide)

def bvidsOf (cat : CatalogState) : List String :=
  cat.videos.map (fun v => v.bvid)

def projOf (cat : CatalogState) : List (String × Bool × Option Nat) :=
  cat.videos.map (fun v => (v.bvid, v.is_deleted, v.deleted_at))

def keysOf (cat : CatalogState) : List (Nat × String) :=
  cat.collection_videos.map (fun m => (m.collection_id, m.bvid))

def midsOf (cat : CatalogState) : List String :=
  cat.uploaders.map (fun u => u.mid)

def uvidsOf (cat : CatalogState) : List String :=
  cat.videos.map (fun v => v.uploader_mid)

def FKOk (cat : CatalogState) : Prop :=
  ∀ m ∈ uvidsOf cat, m ∈ midsOf cat

theorem bvidsOf_eq_of_projOf_eq (A B : CatalogState)
    (h : projOf A = projOf B) : bvidsOf A = bvidsOf B := by
  have h2 := congrArg (List.map (fun p : String × Bool × Option Nat => p.1)) h
  simpa [projOf, bvidsOf, List.map_map, Function.comp] using h2

theorem find?_bvid_of_nodup (l : List CatalogVideo) (v : CatalogVideo)
    (b : String) (hn : (l.map (fun v => v.bvid)).Nodup) (hv : v ∈ l)
    (hb : v.bvid = b) :
    l.find? (fun x => x.bvid == b) = some v := by
  induction l with
  | nil => cases hv
  | cons hd t ih =>
      rcases List.mem_cons.mp hv with rfl | hvt
      · have hbb : (v.bvid == b) = true := beq_iff_eq.mpr hb
        simp [List.find?_cons, hbb]
      · have hne : hd.bvid ≠ b := by
          intro hhb
          have hmem : v.bvid ∈ t.map (fun v => v.bvid) :=
            List.mem_map_of_mem _ hvt
          rw [hb, ← hhb] at hmem
          exact (List.nodup_cons.mp hn).1 hmem
        have hbb : (hd.bvid == b) = false := beq_eq_false_iff_ne.mpr hne
        simp only [List.find?_cons, hbb]
        exact ih (List.nodup_cons.mp hn).2 hvt

theorem bvid_unique_of_nodup (l : List CatalogVideo) (v w : CatalogVideo)
    (hn : (l.map (fun v => v.bvid)).Nodup) (hv : v ∈ l) (hw : w ∈ l)
    (h : v.bvid = w.bvid) : v = w :=
  List.inj_on_of_nodup_map hn hv hw h

theorem mem_existingBvids (cat : CatalogState) (cid : Nat) (b : String) :
    b ∈ existingBvids cat cid ↔
      ∃ m ∈ cat.collection_videos, m.collection_id = cid ∧ m.bvid = b ∧
        ∃ v ∈ cat.videos, v.bvid = b ∧ v.uploader_mid ∈ midsOf cat := by
  unfold existingBvids midsOf
  constructor
  · intro h
    obtain ⟨m, hm, hmb⟩ := List.mem_map.mp h
    rw [List.mem_filter] at hm
    obtain ⟨hm1, hm2⟩ := hm
    rw [List.mem_filter] at hm1
    obtain ⟨hmrow, hmcid⟩ := hm1
    obtain ⟨v, hv, hvp⟩ := List.any_eq_true.mp hm2
    rw [Bool.and_eq_true] at hvp
    obtain ⟨u, hu, hup⟩ := List.any_eq_true.mp hvp.2
    refine ⟨m, hmrow, by simpa using hmcid, hmb, v, hv, ?_, ?_⟩
    · rw [beq_iff_eq.mp hvp.1, hmb]
    · rw [List.mem_map]
      exact ⟨u, hu, beq_iff_eq.mp hup⟩
  · rintro ⟨m, hmrow, hmcid, hmb, v, hv, hvb, hvu⟩
    rw [List.mem_map]
    refine ⟨m, ?_, hmb⟩
    rw [List.mem_filter]
    refine ⟨?_, ?_⟩
    · rw [List.mem_filter]
      exact ⟨hmrow, by simpa using hmcid⟩
    · rw [List.any_eq_true]
      refine ⟨v, hv, ?_⟩
      rw [Bool.and_eq_true]
      refine ⟨beq_iff_eq.mpr (hvb.trans hmb.symm), ?_⟩
      rw [List.any_eq_true]
      obtain ⟨u, hu, hum⟩ := List.mem_map.mp hvu
      exact ⟨u, hu, beq_iff_eq.mpr hum⟩

theorem addToCollection_videos (cat : CatalogState) (cid : Nat) (b : String)
    (ft : Option Nat) (now : Nat) :
    (addToCollection cat cid b ft now).videos = cat.videos := by
  unfold addToCollection
  split <;> rfl

theorem addToCollection_uploaders (cat : CatalogState) (cid : Nat) (b : String)
    (ft : Option Nat) (now : Nat) :
    (addToCollection cat cid b ft now).uploaders = cat.uploaders := by
  unfold addToCollection
  split <;> rfl

/-- The membership upsert: existing keys persist, the touched key is present
afterwards, any key afterwards is an old key or the touched one, and when the
key already exists the key list is unchanged. -/
theorem addToCollection_keys (cat : CatalogState) (cid : Nat) (b : String)
    (ft : Option Nat) (now : Nat) :
    (∀ k ∈ cat.collection_videos.map (fun m => (m.collection_id, m.bvid)),
      k ∈ (addToCollection cat cid b ft now).collection_videos.map
        (fun m => (m.collection_id, m.bvid))) ∧
    ((cid, b) ∈ (addToCollection cat cid b ft now).collection_videos.map
      (fun m => (m.collection_id, m.bvid))) ∧
    (∀ k ∈ (addToCollection cat cid b ft now).collection_videos.map
        (fun m => (m.collection_id, m.bvid)),
      k ∈ cat.collection_videos.map (fun m => (m.collection_id, m.bvid)) ∨
        k = (cid, b)) ∧
    ((cat.collection_videos.any (fun m =>
        m.collection_id == cid && m.bvid == b)) = true →
      (addToCollection cat cid b ft now).collection_videos.map
          (fun m => (m.collection_id, m.bvid))
        = cat.collection_videos.map (fun m => (m.collection_id, m.bvid))) := by
  unfold addToCollection
  by_cases hex : (cat.collection_videos.any (fun m =>
      m.collection_id == cid && m.bvid == b)) = true
  · rw [if_pos hex]
    have hmap : (cat.collection_videos.map (fun m =>
        if m.collection_id == cid && m.bvid == b then
          { m with fav_time := ft, last_seen := now }
        else m)).map (fun m => (m.collection_id, m.bvid))
        = cat.collection_videos.map (fun m => (m.collection_id, m.bvid)) := by
      rw [List.map_map]
      apply List.map_congr_left
      intro m hm
      by_cases hmm : (m.collection_id == cid && m.bvid == b) = true
      · simp [Function.comp, hmm]
      · simp [Function.comp, hmm]
    refine ⟨?_, ?_, ?_, fun _ => hmap⟩
    · intro k hk
      rw [hmap]
      exact hk
    · rw [hmap]
      obtain ⟨m, hm, hmp⟩ := List.any_eq_true.mp hex
      rw [Bool.and_eq_true] at hmp
      rw [List.mem_map]
      exact ⟨m, hm, by rw [beq_iff_eq.mp hmp.1, beq_iff_eq.mp hmp.2]⟩
    · intro k hk
      rw [hmap] at hk
      exact Or.inl hk
  · rw [if_neg hex]
    refine ⟨?_, ?_, ?_, fun h => absurd h hex⟩
    · intro k hk
      rw [List.map_append]
      exact List.mem_append_left _ hk
    · rw [List.map_append]
      apply List.mem_append_right
      simp
    · intro k hk
      rw [List.map_append] at hk
      rcases List.mem_append.mp hk with h | h
      · exact Or.inl h
      · right
        simpa using h

theorem getOrCreateUploader_mids (cat : CatalogState) (mid name : String) :
    (∀ m ∈ midsOf cat, m ∈ midsOf (getOrCreateUploader cat mid name)) ∧
    mid ∈ midsOf (getOrCreateUploader cat mid name) := by
  unfold getOrCreateUploader midsOf
  by_cases hex : (cat.uploaders.any (fun u => u.mid == mid)) = true
  · rw [if_pos hex]
    have hmap : (cat.uploaders.map (fun u =>
        if u.mid == mid then { u with name := name } else u)).map
          (fun u => u.mid)
        = cat.uploaders.map (fun u => u.mid) := by
      rw [List.map_map]
      apply List.map_congr_left
      intro u hu
      by_cases huu : (u.mid == mid) = true
      · simp [Function.comp, huu]
      · simp [Function.comp, huu]
    rw [hmap]
    refine ⟨fun m hm => hm, ?_⟩
    obtain ⟨u, hu, hup⟩ := List.any_eq_true.mp hex
    rw [List.mem_map]
    exact ⟨u, hu, beq_iff_eq.mp hup⟩
  · rw [if_neg hex]
    rw [List.map_append]
    refine ⟨fun m hm => List.mem_append_left _ hm, ?_⟩
    apply List.mem_append_right
    simp

theorem downloadCoverIfNeeded_more (dl : String → String → Option String)
    (cat : CatalogState) (stats : SyncStats) (b u : String) :
    (downloadCoverIfNeeded dl cat stats b u).1.uploaders = cat.uploaders ∧
    (downloadCoverIfNeeded dl cat stats b u).1.videos.map
        (fun v => v.uploader_mid)
      = cat.videos.map (fun v => v.uploader_mid) := by
  unfold downloadCoverIfNeeded
  cases cat.videos.find? (fun v => v.bvid == b) with
  | none => exact ⟨rfl, rfl⟩
  | some v =>
      simp only
      by_cases hc : v.local_cover_path.isSome
      · rw [if_pos hc]
        exact ⟨rfl, rfl⟩
      · rw [if_neg hc]
        cases dl b u with
        | none => exact ⟨rfl, rfl⟩
        | some path =>
            refine ⟨rfl, ?_⟩
            rw [List.map_map]
            apply List.map_congr_left
            intro w hw
            by_cases hb : w.bvid = b <;> simp [Function.comp, hb]

theorem postProcessVideo_more (dl : String → String → Option String)
    (cat : CatalogState) (stats : SyncStats) (item : FetchedItem)
    (cid now : Nat) :
    (postProcessVideo dl cat stats item cid now).1.uploaders = cat.uploaders ∧
    (postProcessVideo dl cat stats item cid now).1.videos.map
        (fun v => v.uploader_mid)
      = cat.videos.map (fun v => v.uploader_mid) ∧
    (postProcessVideo dl cat stats item cid now).1.collection_videos
      = (addToCollection cat cid item.bvid item.fav_time now).collection_videos := by
  simp only [postProcessVideo]
  by_cases hstat : item.cnt_info
  · rw [if_pos hstat]
    by_cases hcov : (!(itemIsDeleted item) && item.cover != "") = true
    · rw [if_pos hcov]
      have h := downloadCoverIfNeeded_more dl
        { addToCollection cat cid item.bvid item.fav_time now with
          video_stats := (addToCollection cat cid item.bvid item.fav_time now).video_stats ++ [item.bvid] }
        stats item.bvid item.cover
      have h2 := downloadCoverIfNeeded_spec dl
        { addToCollection cat cid item.bvid item.fav_time now with
          video_stats := (addToCollection cat cid item.bvid item.fav_time now).video_stats ++ [item.bvid] }
        stats item.bvid item.cover
      refine ⟨?_, ?_, ?_⟩
      · rw [h.1]
        show (addToCollection cat cid item.bvid item.fav_time now).uploaders = _
        rw [addToCollection_uploaders]
      · rw [h.2]
        show ((addToCollection cat cid item.bvid item.fav_time now).videos.map _) = _
        rw [addToCollection_videos]
      · exact h2.2.1
    · rw [if_neg hcov]
      refine ⟨?_, ?_, rfl⟩
      · show (addToCollection cat cid item.bvid item.fav_time now).uploaders = _
        rw [addToCollection_uploaders]
      · show ((addToCollection cat cid item.bvid item.fav_time now).videos.map _) = _
        rw [addToCollection_videos]
  · rw [if_neg hstat]
    by_cases hcov : (!(itemIsDeleted item) && item.cover != "") = true
    · rw [if_pos hcov]
      have h := downloadCoverIfNeeded_more dl
        (addToCollection cat cid item.bvid item.fav_time now)
        stats item.bvid item.cover
      have h2 := downloadCoverIfNeeded_spec dl
        (addToCollection cat cid item.bvid item.fav_time now)
        stats item.bvid item.cover
      refine ⟨?_, ?_, h2.2.1⟩
      · rw [h.1, addToCollection_uploaders]
      · rw [h.2, addToCollection_videos]
    · rw [if_neg hcov]
      refine ⟨?_, ?_, rfl⟩
      · rw [addToCollection_uploaders]
      · rw [addToCollection_videos]

theorem updateFields_isdel (existing : CatalogVideo) (item : FetchedItem)
    (now : Nat) :
    (updateFields existing item now).2.1 = itemIsDeleted item := by
  unfold updateFields
  by_cases h1 : (!existing.is_deleted && itemIsDeleted item) = true
  · rw [if_pos h1]
    rw [Bool.and_eq_true, Bool.not_eq_true'] at h1
    exact h1.2.symm
  · rw [if_neg h1]
    by_cases h2 : (existing.is_deleted && !(itemIsDeleted item)) = true
    · rw [if_pos h2]
      rw [Bool.and_eq_true, Bool.not_eq_true'] at h2
      exact h2.2.symm
    · rw [if_neg h2]

theorem updateFields_nochange (existing : CatalogVideo) (item : FetchedItem)
    (now : Nat) (h : existing.is_deleted = itemIsDeleted item) :
    (updateFields existing item now).2.1 = existing.is_deleted ∧
    (updateFields existing item now).2.2 = existing.deleted_at := by
  unfold updateFields
  have h1 : (!existing.is_deleted && itemIsDeleted item) = false := by
    rw [← h]
    cases existing.is_deleted <;> rfl
  have h2 : (existing.is_deleted && !(itemIsDeleted item)) = false := by
    rw [← h]
    cases existing.is_deleted <;> rfl
  rw [if_neg (by rw [h1]; exact Bool.false_ne_true),
    if_neg (by rw [h2]; exact Bool.false_ne_true)]
  exact ⟨h.symm, rfl⟩

theorem processVideoData_effects (dl : String → String → Option String)
    (cat : CatalogState) (st : SyncStats) (item : FetchedItem) (cid now : Nat) :
    (∃ a, (item.bvid, itemIsDeleted item, a) ∈
      projOf (processVideoData dl (cat, st) item cid now).1) ∧
    (∀ p ∈ projOf cat, p.1 ≠ item.bvid →
      p ∈ projOf (processVideoData dl (cat, st) item cid now).1) ∧
    (∀ b ∈ bvidsOf cat, b ∈ bvidsOf (processVideoData dl (cat, st) item cid now).1) ∧
    (∀ b ∈ bvidsOf (processVideoData dl (cat, st) item cid now).1,
      b ∈ bvidsOf cat ∨ b = item.bvid) ∧
    ((bvidsOf cat).Nodup →
      (bvidsOf (processVideoData dl (cat, st) item cid now).1).Nodup) ∧
    (∀ k ∈ keysOf cat, k ∈ keysOf (processVideoData dl (cat, st) item cid now).1) ∧
    ((cid, item.bvid) ∈ keysOf (processVideoData dl (cat, st) item cid now).1) ∧
    (∀ k ∈ keysOf (processVideoData dl (cat, st) item cid now).1,
      k ∈ keysOf cat ∨ k = (cid, item.bvid)) ∧
    (∀ m ∈ midsOf cat, m ∈ midsOf (processVideoData dl (cat, st) item cid now).1) ∧
    (FKOk cat → FKOk (processVideoData dl (cat, st) item cid now).1) := by
  have hUv : (getOrCreateUploader cat item.uploader_mid item.uploader_name).videos
      = cat.videos := getOrCreateUploader_videos cat _ _
  have hUr : (getOrCreateUploader cat item.uploader_mid item.uploader_name).collection_videos
      = cat.collection_videos := getOrCreateUploader_collection_videos cat _ _
  cases hfind : (getOrCreateUploader cat item.uploader_mid item.uploader_name).videos.find?
      (fun v => v.bvid == item.bvid) with
  | some ex =>
      have hA : processVideoData dl (cat, st) item cid now
          = postProcessVideo dl
            { getOrCreateUploader cat item.uploader_mid item.uploader_name with
              videos := (getOrCreateUploader cat item.uploader_mid item.uploader_name).videos.map
                (fun v => if v.bvid == item.bvid then
                  { v with title := (updateFields ex item now).1,
                           attr := item.attr,
                           is_deleted := (updateFields ex item now).2.1,
                           deleted_at := (updateFields ex item now).2.2 }
                else v) }
            { st with videos_updated := st.videos_updated + 1 } item cid now := by
        simp only [processVideoData, hfind]
      have hexmem : ex ∈ cat.videos := by
        rw [← hUv]
        exact List.mem_of_find?_eq_some hfind
      have hexb : ex.bvid = item.bvid := by
        have := List.find?_some hfind
        simpa using this
      have hspec := postProcessVideo_spec dl
        { getOrCreateUploader cat item.uploader_mid item.uploader_name with
          videos := (getOrCreateUploader cat item.uploader_mid item.uploader_name).videos.map
            (fun v => if v.bvid == item.bvid then
              { v with title := (updateFields ex item now).1,
                       attr := item.attr,
                       is_deleted := (updateFields ex item now).2.1,
                       deleted_at := (updateFields ex item now).2.2 }
            else v) }
        { st with videos_updated := st.videos_updated + 1 } item cid now
      have hmore := postProcessVideo_more dl
        { getOrCreateUploader cat item.uploader_mid item.uploader_name with
          videos := (getOrCreateUploader cat item.uploader_mid item.uploader_name).videos.map
            (fun v => if v.bvid == item.bvid then
              { v with title := (updateFields ex item now).1,
                       attr := item.attr,
                       is_deleted := (updateFields ex item now).2.1,
                       deleted_at := (updateFields ex item now).2.2 }
            else v) }
        { st with videos_updated := st.videos_updated + 1 } item cid now
      -- the post-update proj list
      have hproj : projOf (processVideoData dl (cat, st) item cid now).1
          = cat.videos.map (fun v =>
              if v.bvid = item.bvid then
                (v.bvid, (updateFields ex item now).2.1, (updateFields ex item now).2.2)
              else (v.bvid, v.is_deleted, v.deleted_at)) := by
        rw [hA]
        show (postProcessVideo dl _ _ item cid now).1.videos.map _ = _
        rw [hspec.1]
        show ((getOrCreateUploader cat item.uploader_mid item.uploader_name).videos.map _).map _ = _
        rw [hUv, List.map_map]
        apply List.map_congr_left
        intro v hv
        by_cases hb : v.bvid = item.bvid
        · simp [Function.comp, hb]
        · simp [Function.comp, hb]
      have hbv : bvidsOf (processVideoData dl (cat, st) item cid now).1
          = bvidsOf cat := by
        unfold bvidsOf
        have h2 := congrArg (List.map (fun p : String × Bool × Option Nat => p.1)) hproj
        unfold projOf at h2
        simp only [List.map_map] at h2
        rw [show ((fun p : String × Bool × Option Nat => p.1) ∘
            (fun v : CatalogVideo => (v.bvid, v.is_deleted, v.deleted_at)))
            = (fun v : CatalogVideo => v.bvid) from rfl] at h2
        rw [h2]
        apply List.map_congr_left
        intro v hv
        by_cases hb : v.bvid = item.bvid
        · simp [Function.comp, hb]
        · simp [Function.comp, hb]
      have hkeys : (processVideoData dl (cat, st) item cid now).1.collection_videos
          = (addToCollection
              { getOrCreateUploader cat item.uploader_mid item.uploader_name with
                videos := (getOrCreateUploader cat item.uploader_mid item.uploader_name).videos.map
                  (fun v => if v.bvid == item.bvid then
                    { v with title := (updateFields ex item now).1,
                             attr := item.attr,
                             is_deleted := (updateFields ex item now).2.1,
                             deleted_at := (updateFields ex item now).2.2 }
                  else v) }
              cid item.bvid item.fav_time now).collection_videos := by
        rw [hA]
        exact hmore.2.2
      have hak := addToCollection_keys
        { getOrCreateUploader cat item.uploader_mid item.uploader_name with
          videos := (getOrCreateUploader cat item.uploader_mid item.uploader_name).videos.map
            (fun v => if v.bvid == item.bvid then
              { v with title := (updateFields ex item now).1,
                       attr := item.attr,
                       is_deleted := (updateFields ex item now).2.1,
                       deleted_at := (updateFields ex item now).2.2 }
            else v) }
        cid item.bvid item.fav_time now
      have hrows :
          ({ getOrCreateUploader cat item.uploader_mid item.uploader_name with
            videos := (getOrCreateUploader cat item.uploader_mid item.uploader_name).videos.map
              (fun v => if v.bvid == item.bvid then
                { v with title := (updateFields ex item now).1,
                         attr := item.attr,
                         is_deleted := (updateFields ex item now).2.1,
                         deleted_at := (updateFields ex item now).2.2 }
              else v) } : CatalogState).collection_videos
          = cat.collection_videos := hUr
      have hups : (processVideoData dl (cat, st) item cid now).1.uploaders
          = (getOrCreateUploader cat item.uploader_mid item.uploader_name).uploaders := by
        rw [hA]
        exact hmore.1
      have huv : uvidsOf (processVideoData dl (cat, st) item cid now).1
          = uvidsOf cat := by
        unfold uvidsOf
        rw [hA]
        show (postProcessVideo dl _ _ item cid now).1.videos.map _ = _
        rw [hmore.2.1]
        show ((getOrCreateUploader cat item.uploader_mid item.uploader_name).videos.map _).map _ = _
        rw [hUv, List.map_map]
        apply List.map_congr_left
        intro v hv
        by_cases hb : v.bvid = item.bvid
        · simp [Function.comp, hb]
        · simp [Function.comp, hb]
      refine ⟨?_, ?_, ?_, ?_, ?_, ?_, ?_, ?_, ?_, ?_⟩
      · refine ⟨(updateFields ex item now).2.2, ?_⟩
        rw [hproj, List.mem_map]
        refine ⟨ex, hexmem, ?_⟩
        rw [if_pos hexb, hexb, updateFields_isdel]
      · intro p hp hpne
        obtain ⟨v, hv, hvp⟩ := List.mem_map.mp hp
        rw [hproj, List.mem_map]
        refine ⟨v, hv, ?_⟩
        have hvb : v.bvid ≠ item.bvid := by
          intro h
          apply hpne
          rw [← hvp, ← h]
        rw [if_neg hvb, hvp]
      · intro b hb
        rw [hbv]
        exact hb
      · intro b hb
        rw [hbv] at hb
        exact Or.inl hb
      · intro hn
        rw [hbv]
        exact hn
      · intro k hk
        show k ∈ (processVideoData dl (cat, st) item cid now).1.collection_videos.map _
        rw [hkeys]
        apply hak.1
        rw [hrows]
        exact hk
      · show _ ∈ (processVideoData dl (cat, st) item cid now).1.collection_videos.map _
        rw [hkeys]
        exact hak.2.1
      · intro k hk
        rw [show keysOf (processVideoData dl (cat, st) item cid now).1
            = (processVideoData dl (cat, st) item cid now).1.collection_videos.map
              (fun m => (m.collection_id, m.bvid)) from rfl, hkeys] at hk
        rcases hak.2.2.1 k hk with h | h
        · rw [hrows] at h
          exact Or.inl h
        · exact Or.inr h
      · intro m hm
        unfold midsOf
        rw [hups]
        exact (getOrCreateUploader_mids cat item.uploader_mid item.uploader_name).1 m hm
      · intro hfk m hm
        rw [huv] at hm
        unfold midsOf
        rw [hups]
        exact (getOrCreateUploader_mids cat item.uploader_mid item.uploader_name).1 m (hfk m hm)
  | none =>
      have hA : processVideoData dl (cat, st) item cid now
          = postProcessVideo dl
            { getOrCreateUploader cat item.uploader_mid item.uploader_name with
              videos := (getOrCreateUploader cat item.uploader_mid item.uploader_name).videos ++
                [{ bvid := item.bvid, title := item.title, attr := item.attr,
                   uploader_mid := item.uploader_mid,
                   is_deleted := itemIsDeleted item,
                   deleted_at := if itemIsDeleted item then some now else none,
                   local_cover_path := none }] }
            { st with videos_added := st.videos_added + 1 } item cid now := by
        simp only [processVideoData, hfind]
      have hnotin : item.bvid ∉ bvidsOf cat := by
        intro hmem
        obtain ⟨v, hv, hvb⟩ := List.mem_map.mp hmem
        have := List.find?_eq_none.mp hfind v (by rw [hUv]; exact hv)
        exact this (beq_iff_eq.mpr hvb)
      have hspec := postProcessVideo_spec dl
        { getOrCreateUploader cat item.uploader_mid item.uploader_name with
          videos := (getOrCreateUploader cat item.uploader_mid item.uploader_name).videos ++
            [{ bvid := item.bvid, title := item.title, attr := item.attr,
               uploader_mid := item.uploader_mid,
               is_deleted := itemIsDeleted item,
               deleted_at := if itemIsDeleted item then some now else none,
               local_cover_path := none }] }
        { st with videos_added := st.videos_added + 1 } item cid now
      have hmore := postProcessVideo_more dl
        { getOrCreateUploader cat item.uploader_mid item.uploader_name with
          videos := (getOrCreateUploader cat item.uploader_mid item.uploader_name).videos ++
            [{ bvid := item.bvid, title := item.title, attr := item.attr,
               uploader_mid := item.uploader_mid,
               is_deleted := itemIsDeleted item,
               deleted_at := if itemIsDeleted item then some now else none,
               local_cover_path := none }] }
        { st with videos_added := st.videos_added + 1 } item cid now
      have hproj : projOf (processVideoData dl (cat, st) item cid now).1
          = projOf cat ++ [(item.bvid, itemIsDeleted item,
              if itemIsDeleted item then some now else none)] := by
        rw [hA]
        show (postProcessVideo dl _ _ item cid now).1.videos.map _ = _
        rw [hspec.1]
        show (((getOrCreateUploader cat item.uploader_mid item.uploader_name).videos ++ _).map _) = _
        rw [hUv, List.map_append]
        rfl
      have hbv : bvidsOf (processVideoData dl (cat, st) item cid now).1
          = bvidsOf cat ++ [item.bvid] := by
        have h2 := congrArg (List.map (fun p : String × Bool × Option Nat => p.1)) hproj
        unfold projOf at h2
        simp only [List.map_map, List.map_append] at h2
        unfold bvidsOf
        simpa [Function.comp] using h2
      have huv : uvidsOf (processVideoData dl (cat, st) item cid now).1
          = uvidsOf cat ++ [item.uploader_mid] := by
        unfold uvidsOf
        rw [hA]
        show (postProcessVideo dl _ _ item cid now).1.videos.map _ = _
        rw [hmore.2.1]
        show (((getOrCreateUploader cat item.uploader_mid item.uploader_name).videos ++ _).map _) = _
        rw [hUv, List.map_append]
        rfl
      have hkeys : (processVideoData dl (cat, st) item cid now).1.collection_videos
          = (addToCollection
              { getOrCreateUploader cat item.uploader_mid item.uploader_name with
                videos := (getOrCreateUploader cat item.uploader_mid item.uploader_name).videos ++
                  [{ bvid := item.bvid, title := item.title, attr := item.attr,
                     uploader_mid := item.uploader_mid,
                     is_deleted := itemIsDeleted item,
                     deleted_at := if itemIsDeleted item then some now else none,
                     local_cover_path := none }] }
              cid item.bvid item.fav_time now).collection_videos := by
        rw [hA]
        exact hmore.2.2
      have hak := addToCollection_keys
        { getOrCreateUploader cat item.uploader_mid item.uploader_name with
          videos := (getOrCreateUploader cat item.uploader_mid item.uploader_name).videos ++
            [{ bvid := item.bvid, title := item.title, attr := item.attr,
               uploader_mid := item.uploader_mid,
               is_deleted := itemIsDeleted item,
               deleted_at := if itemIsDeleted item then some now else none,
               local_cover_path := none }] }
        cid item.bvid item.fav_time now
      have hrows :
          ({ getOrCreateUploader cat item.uploader_mid item.uploader_name with
            videos := (getOrCreateUploader cat item.uploader_mid item.uploader_name).videos ++
              [{ bvid := item.bvid, title := item.title, attr := item.attr,
                 uploader_mid := item.uploader_mid,
                 is_deleted := itemIsDeleted item,
                 deleted_at := if itemIsDeleted item then some now else none,
                 local_cover_path := none }] } : CatalogState).collection_videos
          = cat.collection_videos := hUr
      have hups : (processVideoData dl (cat, st) item cid now).1.uploaders
          = (getOrCreateUploader cat item.uploader_mid item.uploader_name).uploaders := by
        rw [hA]
        exact hmore.1
      refine ⟨?_, ?_, ?_, ?_, ?_, ?_, ?_, ?_, ?_, ?_⟩
      · refine ⟨if itemIsDeleted item then some now else none, ?_⟩
        rw [hproj]
        exact List.mem_append_right _ (by simp)
      · intro p hp hpne
        rw [hproj]
        exact List.mem_append_left _ hp
      · intro b hb
        rw [hbv]
        exact List.mem_append_left _ hb
      · intro b hb
        rw [hbv] at hb
        rcases List.mem_append.mp hb with h | h
        · exact Or.inl h
        · right
          simpa using h
      · intro hn
        rw [hbv, List.nodup_append]
        refine ⟨hn, List.nodup_singleton _, ?_⟩
        intro a ha ha2
        rw [List.mem_singleton] at ha2
        subst ha2
        exact hnotin ha
      · intro k hk
        show k ∈ (processVideoData dl (cat, st) item cid now).1.collection_videos.map _
        rw [hkeys]
        apply hak.1
        rw [hrows]
        exact hk
      · show _ ∈ (processVideoData dl (cat, st) item cid now).1.collection_videos.map _
        rw [hkeys]
        exact hak.2.1
      · intro k hk
        rw [show keysOf (processVideoData dl (cat, st) item cid now).1
            = (processVideoData dl (cat, st) item cid now).1.collection_videos.map
              (fun m => (m.collection_id, m.bvid)) from rfl, hkeys] at hk
        rcases hak.2.2.1 k hk with h | h
        · rw [hrows] at h
          exact Or.inl h
        · exact Or.inr h
      · intro m hm
        unfold midsOf
        rw [hups]
        exact (getOrCreateUploader_mids cat item.uploader_mid item.uploader_name).1 m hm
      · intro hfk m hm
        rw [huv] at hm
        unfold midsOf
        rw [hups]
        rcases List.mem_append.mp hm with h | h
        · exact (getOrCreateUploader_mids cat item.uploader_mid item.uploader_name).1 m (hfk m h)
        · rw [List.mem_singleton] at h
          subst h
          exact (getOrCreateUploader_mids cat item.uploader_mid item.uploader_name).2

theorem reconcileRemoved_effects (cat : CatalogState) (stats : SyncStats)
    (b : String) (cid : Nat) (ctitle : String) (now : Nat) :
    bvidsOf (reconcileRemoved cat stats b cid ctitle now).1 = bvidsOf cat ∧
    (∀ p ∈ projOf cat, p.1 ≠ b →
      p ∈ projOf (reconcileRemoved cat stats b cid ctitle now).1) ∧
    (∀ k ∈ keysOf (reconcileRemoved cat stats b cid ctitle now).1,
      k ∈ keysOf cat) ∧
    (∀ k ∈ keysOf cat, k ≠ (cid, b) →
      k ∈ keysOf (reconcileRemoved cat stats b cid ctitle now).1) ∧
    (b ∈ bvidsOf cat →
      (cid, b) ∉ keysOf (reconcileRemoved cat stats b cid ctitle now).1) ∧
    midsOf (reconcileRemoved cat stats b cid ctitle now).1 = midsOf cat ∧
    uvidsOf (reconcileRemoved cat stats b cid ctitle now).1 = uvidsOf cat := by
  cases hfind : cat.videos.find? (fun v => v.bvid == b) with
  | none =>
      have hR : reconcileRemoved cat stats b cid ctitle now
          = (cat, { stats with videos_deleted := stats.videos_deleted + 1 }) := by
        simp only [reconcileRemoved, markVideoDeleted, hfind]
      rw [hR]
      refine ⟨rfl, fun p hp _ => hp, fun k hk => hk, fun k hk _ => hk, ?_, rfl, rfl⟩
      intro hb
      exfalso
      obtain ⟨v, hv, hvb⟩ := List.mem_map.mp hb
      exact List.find?_eq_none.mp hfind v hv (beq_iff_eq.mpr hvb)
  | some video =>
      have hR : (reconcileRemoved cat stats b cid ctitle now).1
          = { cat with
              videos := cat.videos.map (fun v =>
                if v.bvid == b then
                  { v with is_deleted := true, deleted_at := some now }
                else v),
              collection_videos := cat.collection_videos.filter (fun m =>
                !(m.collection_id == cid && m.bvid == b)),
              deletion_logs := cat.deletion_logs ++
                [⟨cid, b, video.title, uploaderNameOf cat video.uploader_mid,
                  "从B站收藏夹中移除"⟩] } := by
        simp only [reconcileRemoved, markVideoDeleted, hfind]
      rw [hR]
      refine ⟨?_, ?_, ?_, ?_, ?_, rfl, ?_⟩
      · unfold bvidsOf
        show (cat.videos.map _).map _ = _
        rw [List.map_map]
        apply List.map_congr_left
        intro v hv
        by_cases hb : v.bvid = b <;> simp [Function.comp, hb]
      · intro p hp hpne
        obtain ⟨v, hv, hvp⟩ := List.mem_map.mp hp
        show p ∈ (cat.videos.map _).map _
        rw [List.mem_map]
        refine ⟨(fun v => if v.bvid == b then
            { v with is_deleted := true, deleted_at := some now } else v) v,
          List.mem_map_of_mem _ hv, ?_⟩
        have hvb : v.bvid ≠ b := by
          intro h
          apply hpne
          rw [← hvp, ← h]
        have hbeq : (v.bvid == b) = false := beq_eq_false_iff_ne.mpr hvb
        simp only [hbeq, Bool.false_eq_true, if_false]
        exact hvp
      · intro k hk
        show k ∈ _
        obtain ⟨m, hm, hmk⟩ := List.mem_map.mp hk
        rw [List.mem_filter] at hm
        exact List.mem_map.mpr ⟨m, hm.1, hmk⟩
      · intro k hk hkne
        obtain ⟨m, hm, hmk⟩ := List.mem_map.mp hk
        show k ∈ (cat.collection_videos.filter _).map _
        rw [List.mem_map]
        refine ⟨m, ?_, hmk⟩
        rw [List.mem_filter]
        refine ⟨hm, ?_⟩
        by_cases hc : (m.collection_id == cid && m.bvid == b) = true
        · exfalso
          rw [Bool.and_eq_true] at hc
          apply hkne
          rw [← hmk, beq_iff_eq.mp hc.1, beq_iff_eq.mp hc.2]
        · have hcf : (m.collection_id == cid && m.bvid == b) = false := by
            revert hc
            cases (m.collection_id == cid && m.bvid == b) <;> simp
          rw [hcf]
          rfl
      · intro _ hmem
        obtain ⟨m, hm, hmk⟩ := List.mem_map.mp hmem
        rw [List.mem_filter] at hm
        have h1 : m.collection_id = cid := congrArg Prod.fst hmk
        have h2 : m.bvid = b := congrArg Prod.snd hmk
        have : (m.collection_id == cid && m.bvid == b) = true := by
          rw [Bool.and_eq_true]
          exact ⟨beq_iff_eq.mpr h1, beq_iff_eq.mpr h2⟩
        rw [this] at hm
        exact absurd hm.2 (by decide)
      · unfold uvidsOf
        show (cat.videos.map _).map _ = _
        rw [List.map_map]
        apply List.map_congr_left
        intro v hv
        by_cases hb : v.bvid = b <;> simp [Function.comp, hb]

def reconPhase1 (dl : String → String → Option String) (cid now : Nat)
    (items : List FetchedItem) (st : CatalogState × SyncStats) :
    CatalogState × SyncStats :=
  items.foldl (fun st item => processVideoData dl st item cid now) st

def reconPhase2 (cid : Nat) (ctitle : String) (now : Nat) (dlist : List String)
    (st : CatalogState × SyncStats) : CatalogState × SyncStats :=
  dlist.foldl (fun st b => reconcileRemoved st.1 st.2 b cid ctitle now) st

theorem processCollectionData_eq (dl : String → String → Option String)
    (cat : CatalogState) (stats : SyncStats) (items : List FetchedItem)
    (cid : Nat) (ctitle : String) (now : Nat) :
    processCollectionData dl cat stats items cid ctitle now
      = reconPhase2 cid ctitle now
          ((existingBvids cat cid).filter
            (fun b => !((items.map (fun i => i.bvid)).contains b)))
          (reconPhase1 dl cid now items (cat, stats)) := rfl

theorem reconPhase1_inv (dl : String → String → Option String) (cid now : Nat) :
    ∀ (items : List FetchedItem) (cat : CatalogState) (st : SyncStats),
    (∀ b ∈ bvidsOf cat, b ∈ bvidsOf (reconPhase1 dl cid now items (cat, st)).1) ∧
    (∀ b ∈ bvidsOf (reconPhase1 dl cid now items (cat, st)).1,
      b ∈ bvidsOf cat ∨ b ∈ items.map (fun i => i.bvid)) ∧
    ((bvidsOf cat).Nodup →
      (bvidsOf (reconPhase1 dl cid now items (cat, st)).1).Nodup) ∧
    (∀ k ∈ keysOf cat, k ∈ keysOf (reconPhase1 dl cid now items (cat, st)).1) ∧
    (∀ k ∈ keysOf (reconPhase1 dl cid now items (cat, st)).1,
      k ∈ keysOf cat ∨ (k.1 = cid ∧ k.2 ∈ items.map (fun i => i.bvid))) ∧
    (FKOk cat → FKOk (reconPhase1 dl cid now items (cat, st)).1) ∧
    (∀ p ∈ projOf cat, p.1 ∉ items.map (fun i => i.bvid) →
      p ∈ projOf (reconPhase1 dl cid now items (cat, st)).1) := by
  intro items
  induction items with
  | nil =>
      intro cat st
      exact ⟨fun b hb => hb, fun b hb => Or.inl hb, fun h => h, fun k hk => hk,
        fun k hk => Or.inl hk, fun h => h, fun p hp _ => hp⟩
  | cons it rest ih =>
      intro cat st
      have heff := processVideoData_effects dl cat st it cid now
      have hfold : reconPhase1 dl cid now (it :: rest) (cat, st)
          = reconPhase1 dl cid now rest (processVideoData dl (cat, st) it cid now) := rfl
      have ihr := ih (processVideoData dl (cat, st) it cid now).1
        (processVideoData dl (cat, st) it cid now).2
      rw [hfold]
      have hrw : (((processVideoData dl (cat, st) it cid now).1,
          (processVideoData dl (cat, st) it cid now).2) : CatalogState × SyncStats)
          = processVideoData dl (cat, st) it cid now := rfl
      rw [hrw] at ihr
      refine ⟨?_, ?_, ?_, ?_, ?_, ?_, ?_⟩
      · intro b hb
        exact ihr.1 b (heff.2.2.1 b hb)
      · intro b hb
        rcases ihr.2.1 b hb with h | h
        · rcases heff.2.2.2.1 b h with h2 | h2
          · exact Or.inl h2
          · right
            rw [List.map_cons, h2]
            exact List.mem_cons_self _ _
        · right
          rw [List.map_cons]
          exact List.mem_cons_of_mem _ h
      · intro hn
        exact ihr.2.2.1 (heff.2.2.2.2.1 hn)
      · intro k hk
        exact ihr.2.2.2.1 k (heff.2.2.2.2.2.1 k hk)
      · intro k hk
        rcases ihr.2.2.2.2.1 k hk with h | h
        · rcases heff.2.2.2.2.2.2.2.1 k h with h2 | h2
          · exact Or.inl h2
          · right
            rw [h2]
            exact ⟨rfl, by rw [List.map_cons]; exact List.mem_cons_self _ _⟩
        · right
          exact ⟨h.1, by rw [List.map_cons]; exact List.mem_cons_of_mem _ h.2⟩
      · intro hfk
        exact ihr.2.2.2.2.2.1 (heff.2.2.2.2.2.2.2.2.2 hfk)
      · intro p hp hpn
        rw [List.map_cons] at hpn
        have hpn1 : p.1 ≠ it.bvid := fun h => hpn (h ▸ List.mem_cons_self _ _)
        have hpn2 : p.1 ∉ rest.map (fun i => i.bvid) :=
          fun h => hpn (List.mem_cons_of_mem _ h)
        exact ihr.2.2.2.2.2.2 p (heff.2.1 p hp hpn1) hpn2

theorem reconPhase1_items (dl : String → String → Option String) (cid now : Nat) :
    ∀ (items : List FetchedItem) (cat : CatalogState) (st : SyncStats),
    (items.map (fun i => i.bvid)).Nodup →
    ∀ item ∈ items,
      (∃ a, (item.bvid, itemIsDeleted item, a) ∈
        projOf (reconPhase1 dl cid now items (cat, st)).1) ∧
      (cid, item.bvid) ∈ keysOf (reconPhase1 dl cid now items (cat, st)).1 := by
  intro items
  induction items with
  | nil => intro cat st hn item hitem; cases hitem
  | cons it rest ih =>
      intro cat st hn item hitem
      obtain ⟨he1, he2, he3, he4, he5, he6, he7, he8, he9, he10⟩ :=
        processVideoData_effects dl cat st it cid now
      have hfold : reconPhase1 dl cid now (it :: rest) (cat, st)
          = reconPhase1 dl cid now rest (processVideoData dl (cat, st) it cid now) := rfl
      have hinvr := reconPhase1_inv dl cid now rest
        (processVideoData dl (cat, st) it cid now).1
        (processVideoData dl (cat, st) it cid now).2
      have hrw : (((processVideoData dl (cat, st) it cid now).1,
          (processVideoData dl (cat, st) it cid now).2) : CatalogState × SyncStats)
          = processVideoData dl (cat, st) it cid now := rfl
      rw [hrw] at hinvr
      rw [hfold]
      rw [List.map_cons, List.nodup_cons] at hn
      rcases List.mem_cons.mp hitem with rfl | hrest
      · obtain ⟨a, ha⟩ := he1
        refine ⟨⟨a, ?_⟩, ?_⟩
        · exact hinvr.2.2.2.2.2.2 _ ha hn.1
        · exact hinvr.2.2.2.1 _ he7
      · exact ih (processVideoData dl (cat, st) it cid now).1
          (processVideoData dl (cat, st) it cid now).2 hn.2 item hrest

theorem reconPhase2_inv (cid : Nat) (ctitle : String) (now : Nat) :
    ∀ (dlist : List String) (cat : CatalogState) (st : SyncStats),
    bvidsOf (reconPhase2 cid ctitle now dlist (cat, st)).1 = bvidsOf cat ∧
    (∀ p ∈ projOf cat, p.1 ∉ dlist →
      p ∈ projOf (reconPhase2 cid ctitle now dlist (cat, st)).1) ∧
    (∀ k ∈ keysOf (reconPhase2 cid ctitle now dlist (cat, st)).1,
      k ∈ keysOf cat) ∧
    (∀ k ∈ keysOf cat, (∀ b ∈ dlist, k ≠ (cid, b)) →
      k ∈ keysOf (reconPhase2 cid ctitle now dlist (cat, st)).1) ∧
    (∀ b ∈ dlist, b ∈ bvidsOf cat →
      (cid, b) ∉ keysOf (reconPhase2 cid ctitle now dlist (cat, st)).1) ∧
    midsOf (reconPhase2 cid ctitle now dlist (cat, st)).1 = midsOf cat ∧
    uvidsOf (reconPhase2 cid ctitle now dlist (cat, st)).1 = uvidsOf cat := by
  intro dlist
  induction dlist with
  | nil =>
      intro cat st
      exact ⟨rfl, fun p hp _ => hp, fun k hk => hk, fun k hk _ => hk,
        fun b hb => absurd hb (List.not_mem_nil b), rfl, rfl⟩
  | cons b0 rest ih =>
      intro cat st
      obtain ⟨hr1, hr2, hr3, hr4, hr5, hr6, hr7⟩ :=
        reconcileRemoved_effects cat st b0 cid ctitle now
      have hfold : reconPhase2 cid ctitle now (b0 :: rest) (cat, st)
          = reconPhase2 cid ctitle now rest
              (reconcileRemoved cat st b0 cid ctitle now) := rfl
      have ihr := ih (reconcileRemoved cat st b0 cid ctitle now).1
        (reconcileRemoved cat st b0 cid ctitle now).2
      have hrw : (((reconcileRemoved cat st b0 cid ctitle now).1,
          (reconcileRemoved cat st b0 cid ctitle now).2) : CatalogState × SyncStats)
          = reconcileRemoved cat st b0 cid ctitle now := rfl
      rw [hrw] at ihr
      rw [hfold]
      refine ⟨?_, ?_, ?_, ?_, ?_, ?_, ?_⟩
      · rw [ihr.1, hr1]
      · intro p hp hpn
        have hp1 : p.1 ≠ b0 := fun h => hpn (h ▸ List.mem_cons_self _ _)
        have hp2 : p.1 ∉ rest := fun h => hpn (List.mem_cons_of_mem _ h)
        exact ihr.2.1 p (hr2 p hp hp1) hp2
      · intro k hk
        exact hr3 k (ihr.2.2.1 k hk)
      · intro k hk hkn
        have hk1 : k ≠ (cid, b0) := hkn b0 (List.mem_cons_self _ _)
        have hk2 : ∀ b ∈ rest, k ≠ (cid, b) :=
          fun b hb => hkn b (List.mem_cons_of_mem _ hb)
        exact ihr.2.2.2.1 k (hr4 k hk hk1) hk2
      · intro b hb hbv
        rcases List.mem_cons.mp hb with rfl | hbrest
        · intro hmem
          exact hr5 hbv (ihr.2.2.1 _ hmem)
        · exact ihr.2.2.2.2.1 b hbrest (by rw [hr1]; exact hbv)
      · rw [ihr.2.2.2.2.2.1, hr6]
      · rw [ihr.2.2.2.2.2.2, hr7]

theorem mem_keysOf (cat : CatalogState) (k : Nat × String) :
    k ∈ keysOf cat ↔
      ∃ m ∈ cat.collection_videos, m.collection_id = k.1 ∧ m.bvid = k.2 := by
  unfold keysOf
  rw [List.mem_map]
  constructor
  · rintro ⟨m, hm, rfl⟩
    exact ⟨m, hm, rfl, rfl⟩
  · rintro ⟨m, hm, h1, h2⟩
    refine ⟨m, hm, ?_⟩
    cases k
    simp only at h1 h2
    rw [h1, h2]

/-- Post-state of one reconciliation run, as needed for idempotence of the
next run: video bvids are unique, every fetched item has a catalog video
with availability matching its sentinel and a membership row in this
collection, and every joined membership bvid of this collection is among the
fetched bvids. -/
def GoodCat (items : List FetchedItem) (cid : Nat) (cat : CatalogState) : Prop :=
  (bvidsOf cat).Nodup ∧
  (∀ item ∈ items, ∃ a, (item.bvid, itemIsDeleted item, a) ∈ projOf cat) ∧
  (∀ item ∈ items, (cid, item.bvid) ∈ keysOf cat) ∧
  (∀ b ∈ existingBvids cat cid, b ∈ items.map (fun i => i.bvid))

theorem run1_good (dl : String → String → Option String) (cat0 : CatalogState)
    (stats0 : SyncStats) (items : List FetchedItem) (cid : Nat)
    (ctitle : String) (now : Nat)
    (hni : (items.map (fun i => i.bvid)).Nodup)
    (hnv : (bvidsOf cat0).Nodup)
    (hfk : FKOk cat0) :
    GoodCat items cid (processCollectionData dl cat0 stats0 items cid ctitle now).1 := by
  rw [processCollectionData_eq]
  have hrw1 : (((reconPhase1 dl cid now items (cat0, stats0)).1,
      (reconPhase1 dl cid now items (cat0, stats0)).2) : CatalogState × SyncStats)
      = reconPhase1 dl cid now items (cat0, stats0) := rfl
  have hinv1 := reconPhase1_inv dl cid now items cat0 stats0
  have hitems := reconPhase1_items dl cid now items cat0 stats0 hni
  have hinv2 := reconPhase2_inv cid ctitle now
    ((existingBvids cat0 cid).filter
      (fun b => !((items.map (fun i => i.bvid)).contains b)))
    (reconPhase1 dl cid now items (cat0, stats0)).1
    (reconPhase1 dl cid now items (cat0, stats0)).2
  rw [hrw1] at hinv2
  have hDapi : ∀ b ∈ (existingBvids cat0 cid).filter
      (fun b => !((items.map (fun i => i.bvid)).contains b)),
      b ∉ items.map (fun i => i.bvid) := by
    intro b hb
    rw [List.mem_filter] at hb
    simpa using hb.2
  refine ⟨?_, ?_, ?_, ?_⟩
  · rw [hinv2.1]
    exact hinv1.2.2.1 hnv
  · intro item hitem
    obtain ⟨⟨a, ha⟩, hk⟩ := hitems item hitem
    refine ⟨a, hinv2.2.1 _ ha ?_⟩
    intro hmem
    exact hDapi _ hmem (by simp only []; exact List.mem_map_of_mem _ hitem)
  · intro item hitem
    obtain ⟨⟨a, ha⟩, hk⟩ := hitems item hitem
    apply hinv2.2.2.2.1 _ hk
    intro b hb hkb
    apply hDapi b hb
    have : item.bvid = b := congrArg Prod.snd hkb
    rw [← this]
    exact List.mem_map_of_mem _ hitem
  · intro b hb
    by_cases hapi : b ∈ items.map (fun i => i.bvid)
    · exact hapi
    · exfalso
      rw [mem_existingBvids] at hb
      obtain ⟨m, hm, hmcid, hmb, v, hv, hvb, hvu⟩ := hb
      have hkey : (cid, b) ∈ keysOf (reconPhase2 cid ctitle now
          ((existingBvids cat0 cid).filter
            (fun b => !((items.map (fun i => i.bvid)).contains b)))
          (reconPhase1 dl cid now items (cat0, stats0))).1 := by
        rw [mem_keysOf]
        exact ⟨m, hm, by rw [hmcid], by rw [hmb]⟩
      have hbv : b ∈ bvidsOf (reconPhase2 cid ctitle now
          ((existingBvids cat0 cid).filter
            (fun b => !((items.map (fun i => i.bvid)).contains b)))
          (reconPhase1 dl cid now items (cat0, stats0))).1 := by
        unfold bvidsOf
        rw [List.mem_map]
        exact ⟨v, hv, hvb⟩
      -- the key and the video of b both descend from cat0
      have hkey1 : (cid, b) ∈ keysOf (reconPhase1 dl cid now items (cat0, stats0)).1 :=
        hinv2.2.2.1 _ hkey
      have hkey0 : (cid, b) ∈ keysOf cat0 := by
        rcases hinv1.2.2.2.2.1 _ hkey1 with h | h
        · exact h
        · exact absurd h.2 hapi
      have hbv1 : b ∈ bvidsOf (reconPhase1 dl cid now items (cat0, stats0)).1 := by
        rw [← hinv2.1]
        exact hbv
      have hbv0 : b ∈ bvidsOf cat0 := by
        rcases hinv1.2.1 _ hbv1 with h | h
        · exact h
        · exact absurd h hapi
      -- hence b was a joined membership of cat0 and thus in the deleted list
      have hex0 : b ∈ existingBvids cat0 cid := by
        rw [mem_existingBvids]
        obtain ⟨m0, hm0, hm0c, hm0b⟩ := (mem_keysOf cat0 (cid, b)).mp hkey0
        obtain ⟨v0, hv0, hv0b⟩ := List.mem_map.mp hbv0
        refine ⟨m0, hm0, hm0c, hm0b, v0, hv0, hv0b, ?_⟩
        exact hfk v0.uploader_mid (List.mem_map_of_mem _ hv0)
      have hbD : b ∈ (existingBvids cat0 cid).filter
          (fun b => !((items.map (fun i => i.bvid)).contains b)) := by
        rw [List.mem_filter]
        refine ⟨hex0, ?_⟩
        simpa using hapi
      exact hinv2.2.2.2.2.1 b hbD hbv1 hkey

theorem processVideoData_nochange (dl : String → String → Option String)
    (cat : CatalogState) (st : SyncStats) (item : FetchedItem) (cid now : Nat)
    (v : CatalogVideo) (hn : (bvidsOf cat).Nodup) (hv : v ∈ cat.videos)
    (hvb : v.bvid = item.bvid) (hvd : v.is_deleted = itemIsDeleted item)
    (hkey : (cid, item.bvid) ∈ keysOf cat) :
    projOf (processVideoData dl (cat, st) item cid now).1 = projOf cat ∧
    keysOf (processVideoData dl (cat, st) item cid now).1 = keysOf cat ∧
    (processVideoData dl (cat, st) item cid now).2.videos_added
      = st.videos_added ∧
    (processVideoData dl (cat, st) item cid now).2.videos_deleted
      = st.videos_deleted ∧
    (processVideoData dl (cat, st) item cid now).2.videos_restored
      = st.videos_restored ∧
    (processVideoData dl (cat, st) item cid now).2.videos_updated
      = st.videos_updated + 1 := by
  have hUv : (getOrCreateUploader cat item.uploader_mid item.uploader_name).videos
      = cat.videos := getOrCreateUploader_videos cat _ _
  have hUr : (getOrCreateUploader cat item.uploader_mid item.uploader_name).collection_videos
      = cat.collection_videos := getOrCreateUploader_collection_videos cat _ _
  have hfind : (getOrCreateUploader cat item.uploader_mid item.uploader_name).videos.find?
      (fun x => x.bvid == item.bvid) = some v := by
    rw [hUv]
    exact find?_bvid_of_nodup cat.videos v item.bvid hn hv hvb
  have hA : processVideoData dl (cat, st) item cid now
      = postProcessVideo dl
        { getOrCreateUploader cat item.uploader_mid item.uploader_name with
          videos := (getOrCreateUploader cat item.uploader_mid item.uploader_name).videos.map
            (fun w => if w.bvid == item.bvid then
              { w with title := (updateFields v item now).1,
                       attr := item.attr,
                       is_deleted := (updateFields v item now).2.1,
                       deleted_at := (updateFields v item now).2.2 }
            else w) }
        { st with videos_updated := st.videos_updated + 1 } item cid now := by
    simp only [processVideoData, hfind]
  have hnc := updateFields_nochange v item now hvd
  have hspec := postProcessVideo_spec dl
    { getOrCreateUploader cat item.uploader_mid item.uploader_name with
      videos := (getOrCreateUploader cat item.uploader_mid item.uploader_name).videos.map
        (fun w => if w.bvid == item.bvid then
          { w with title := (updateFields v item now).1,
                   attr := item.attr,
                   is_deleted := (updateFields v item now).2.1,
                   deleted_at := (updateFields v item now).2.2 }
        else w) }
    { st with videos_updated := st.videos_updated + 1 } item cid now
  have hmore := postProcessVideo_more dl
    { getOrCreateUploader cat item.uploader_mid item.uploader_name with
      videos := (getOrCreateUploader cat item.uploader_mid item.uploader_name).videos.map
        (fun w => if w.bvid == item.bvid then
          { w with title := (updateFields v item now).1,
                   attr := item.attr,
                   is_deleted := (updateFields v item now).2.1,
                   deleted_at := (updateFields v item now).2.2 }
        else w) }
    { st with videos_updated := st.videos_updated + 1 } item cid now
  have hrows :
      ({ getOrCreateUploader cat item.uploader_mid item.uploader_name with
        videos := (getOrCreateUploader cat item.uploader_mid item.uploader_name).videos.map
          (fun w => if w.bvid == item.bvid then
            { w with title := (updateFields v item now).1,
                     attr := item.attr,
                     is_deleted := (updateFields v item now).2.1,
                     deleted_at := (updateFields v item now).2.2 }
          else w) } : CatalogState).collection_videos
      = cat.collection_videos := hUr
  refine ⟨?_, ?_, ?_, ?_, ?_, ?_⟩
  · rw [hA]
    show (postProcessVideo dl _ _ item cid now).1.videos.map _ = _
    rw [hspec.1]
    show ((getOrCreateUploader cat item.uploader_mid item.uploader_name).videos.map _).map _ = _
    rw [hUv, List.map_map]
    apply List.map_congr_left
    intro w hw
    by_cases hb : w.bvid = item.bvid
    · have hwv : w = v := bvid_unique_of_nodup cat.videos w v hn hw hv
        (by rw [hb, hvb])
      subst hwv
      simp only [Function.comp, beq_iff_eq.mpr hb, if_true, hnc.1, hnc.2]
    · have hbeq : (w.bvid == item.bvid) = false := beq_eq_false_iff_ne.mpr hb
      simp only [Function.comp, hbeq, Bool.false_eq_true, if_false]
  · rw [hA]
    have hany : (({ getOrCreateUploader cat item.uploader_mid item.uploader_name with
        videos := (getOrCreateUploader cat item.uploader_mid item.uploader_name).videos.map
          (fun w => if w.bvid == item.bvid then
            { w with title := (updateFields v item now).1,
                     attr := item.attr,
                     is_deleted := (updateFields v item now).2.1,
                     deleted_at := (updateFields v item now).2.2 }
          else w) } : CatalogState).collection_videos.any
        (fun m => m.collection_id == cid && m.bvid == item.bvid)) = true := by
      rw [hrows, List.any_eq_true]
      obtain ⟨m, hm, hm1, hm2⟩ := (mem_keysOf cat (cid, item.bvid)).mp hkey
      refine ⟨m, hm, ?_⟩
      rw [Bool.and_eq_true]
      exact ⟨beq_iff_eq.mpr hm1, beq_iff_eq.mpr hm2⟩
    have h4 := (addToCollection_keys
      { getOrCreateUploader cat item.uploader_mid item.uploader_name with
        videos := (getOrCreateUploader cat item.uploader_mid item.uploader_name).videos.map
          (fun w => if w.bvid == item.bvid then
            { w with title := (updateFields v item now).1,
                     attr := item.attr,
                     is_deleted := (updateFields v item now).2.1,
                     deleted_at := (updateFields v item now).2.2 }
          else w) }
      cid item.bvid item.fav_time now).2.2.2 hany
    show (postProcessVideo dl _ _ item cid now).1.collection_videos.map _ = _
    rw [hmore.2.2, h4, hrows]
    rfl
  · rw [hA]
    exact hspec.2.1
  · rw [hA]
    exact hspec.2.2.2.1
  · rw [hA]
    exact hspec.2.2.2.2
  · rw [hA]
    exact hspec.2.2.1

theorem reconPhase1_nochange (dl : String → String → Option String)
    (cid now : Nat) :
    ∀ (items : List FetchedItem) (cat : CatalogState) (st : SyncStats),
    (bvidsOf cat).Nodup →
    (∀ item ∈ items, ∃ a, (item.bvid, itemIsDeleted item, a) ∈ projOf cat) →
    (∀ item ∈ items, (cid, item.bvid) ∈ keysOf cat) →
    projOf (reconPhase1 dl cid now items (cat, st)).1 = projOf cat ∧
    keysOf (reconPhase1 dl cid now items (cat, st)).1 = keysOf cat ∧
    (reconPhase1 dl cid now items (cat, st)).2.videos_added = st.videos_added ∧
    (reconPhase1 dl cid now items (cat, st)).2.videos_deleted
      = st.videos_deleted ∧
    (reconPhase1 dl cid now items (cat, st)).2.videos_restored
      = st.videos_restored ∧
    (reconPhase1 dl cid now items (cat, st)).2.videos_updated
      = st.videos_updated + items.length := by
  intro items
  induction items with
  | nil =>
    intro cat st _ _ _
    exact ⟨rfl, rfl, rfl, rfl, rfl, rfl⟩
  | cons it rest ih =>
    intro cat st hn hproj hkeys
    obtain ⟨a, hpa⟩ := hproj it (List.mem_cons_self _ _)
    unfold projOf at hpa
    obtain ⟨v, hvmem, hvp⟩ := List.mem_map.mp hpa
    simp only [Prod.mk.injEq] at hvp
    obtain ⟨h1, h2, h3⟩ := hvp
    have hstep := processVideoData_nochange dl cat st it cid now v hn hvmem
      h1 h2 (hkeys it (List.mem_cons_self _ _))
    have hfold : reconPhase1 dl cid now (it :: rest) (cat, st)
        = reconPhase1 dl cid now rest (processVideoData dl (cat, st) it cid now)
      := rfl
    have hn' : (bvidsOf (processVideoData dl (cat, st) it cid now).1).Nodup := by
      rw [bvidsOf_eq_of_projOf_eq _ _ hstep.1]
      exact hn
    have hproj' : ∀ item ∈ rest, ∃ a, (item.bvid, itemIsDeleted item, a)
        ∈ projOf (processVideoData dl (cat, st) it cid now).1 := by
      rw [hstep.1]
      exact fun item h => hproj item (List.mem_cons_of_mem _ h)
    have hkeys' : ∀ item ∈ rest, (cid, item.bvid)
        ∈ keysOf (processVideoData dl (cat, st) it cid now).1 := by
      rw [hstep.2.1]
      exact fun item h => hkeys item (List.mem_cons_of_mem _ h)
    have ihh := ih (processVideoData dl (cat, st) it cid now).1
      (processVideoData dl (cat, st) it cid now).2 hn' hproj' hkeys'
    rw [hfold]
    refine ⟨?_, ?_, ?_, ?_, ?_, ?_⟩
    · rw [ihh.1, hstep.1]
    · rw [ihh.2.1, hstep.2.1]
    · rw [ihh.2.2.1, hstep.2.2.1]
    · rw [ihh.2.2.2.1, hstep.2.2.2.1]
    · rw [ihh.2.2.2.2.1, hstep.2.2.2.2.1]
    · rw [ihh.2.2.2.2.2, hstep.2.2.2.2.2, List.length_cons]
      omega

/-- C8: after one reconciliation run of a fetched snapshot (with distinct
item bvids, against a catalog with distinct video bvids and intact
uploader foreign keys), a second run of _process_single_collection_data on
the same snapshot performs no catalog mutation (video identities,
availability flags, deletion timestamps and membership rows are all
unchanged, and the added/deleted/restored counters do not move) - but it is
NOT a no-op on the stats: every item takes the update branch, so
videos_updated grows by the number of fetched items. -/
theorem C8_second_run (dl : String → String → Option String)
    (cat0 : CatalogState) (stats0 : SyncStats) (items : List FetchedItem)
    (cid : Nat) (ctitle : String) (now : Nat)
    (hni : (items.map (fun i => i.bvid)).Nodup)
    (hnv : (bvidsOf cat0).Nodup)
    (hfk : FKOk cat0) :
    projOf (processCollectionData dl
        (processCollectionData dl cat0 stats0 items cid ctitle now).1
        (processCollectionData dl cat0 stats0 items cid ctitle now).2
        items cid ctitle now).1
      = projOf (processCollectionData dl cat0 stats0 items cid ctitle now).1 ∧
    bvidsOf (processCollectionData dl
        (processCollectionData dl cat0 stats0 items cid ctitle now).1
        (processCollectionData dl cat0 stats0 items cid ctitle now).2
        items cid ctitle now).1
      = bvidsOf (processCollectionData dl cat0 stats0 items cid ctitle now).1 ∧
    keysOf (processCollectionData dl
        (processCollectionData dl cat0 stats0 items cid ctitle now).1
        (processCollectionData dl cat0 stats0 items cid ctitle now).2
        items cid ctitle now).1
      = keysOf (processCollectionData dl cat0 stats0 items cid ctitle now).1 ∧
    (processCollectionData dl
        (processCollectionData dl cat0 stats0 items cid ctitle now).1
        (processCollectionData dl cat0 stats0 items cid ctitle now).2
        items cid ctitle now).2.videos_added
      = (processCollectionData dl cat0 stats0 items cid ctitle now).2.videos_added ∧
    (processCollectionData dl
        (processCollectionData dl cat0 stats0 items cid ctitle now).1
        (processCollectionData dl cat0 stats0 items cid ctitle now).2
        items cid ctitle now).2.videos_deleted
      = (processCollectionData dl cat0 stats0 items cid ctitle now).2.videos_deleted ∧
    (processCollectionData dl
        (processCollectionData dl cat0 stats0 items cid ctitle now).1
        (processCollectionData dl cat0 stats0 items cid ctitle now).2
        items cid ctitle now).2.videos_restored
      = (processCollectionData dl cat0 stats0 items cid ctitle now).2.videos_restored ∧
    (processCollectionData dl
        (processCollectionData dl cat0 stats0 items cid ctitle now).1
        (processCollectionData dl cat0 stats0 items cid ctitle now).2
        items cid ctitle now).2.videos_updated
      = (processCollectionData dl cat0 stats0 items cid ctitle now).2.videos_updated
          + items.length := by
  have hg := run1_good dl cat0 stats0 items cid ctitle now hni hnv hfk
  have hD : (existingBvids
      (processCollectionData dl cat0 stats0 items cid ctitle now).1 cid).filter
      (fun b => !((items.map (fun i => i.bvid)).contains b)) = [] := by
    rw [List.filter_eq_nil_iff]
    intro b hb
    have := hg.2.2.2 b hb
    simp [this]
  have heq : processCollectionData dl
      (processCollectionData dl cat0 stats0 items cid ctitle now).1
      (processCollectionData dl cat0 stats0 items cid ctitle now).2
      items cid ctitle now
      = reconPhase1 dl cid now items
        ((processCollectionData dl cat0 stats0 items cid ctitle now).1,
         (processCollectionData dl cat0 stats0 items cid ctitle now).2) := by
    rw [processCollectionData_eq, hD]
    rfl
  have hnc := reconPhase1_nochange dl cid now items
    (processCollectionData dl cat0 stats0 items cid ctitle now).1
    (processCollectionData dl cat0 stats0 items cid ctitle now).2
    hg.1 hg.2.1 hg.2.2.1
  rw [heq]
  exact ⟨hnc.1, bvidsOf_eq_of_projOf_eq _ _ hnc.1, hnc.2.1, hnc.2.2.1,
    hnc.2.2.2.1, hnc.2.2.2.2.1, hnc.2.2.2.2.2⟩

/-- An ordinary available fetched item used to exercise the second run. -/
def c8Item : FetchedItem :=
  { bvid := "B9", title := "Bar", attr := 0, uploader_mid := "u1",
    uploader_name := "Alice", fav_time := none, cover := "", cnt_info := false }

/-- C8 (counterexample): the second run on the same snapshot is not free of
additional mutations as claimed - the first run of a one-item snapshot
against an empty catalog leaves videos_updated = 0, and the second run
increments it to 1 (each item takes the update branch of
_process_video_data, which always does stats.videos_updated += 1). -/
theorem C8_counterexample :
    (processCollectionData (fun _ _ => none) {} {} [c8Item] 1 "fav" 0).2.videos_updated
      = 0 ∧
    (processCollectionData (fun _ _ => none)
        (processCollectionData (fun _ _ => none) {} {} [c8Item] 1 "fav" 0).1
        (processCollectionData (fun _ _ => none) {} {} [c8Item] 1 "fav" 0).2
        [c8Item] 1 "fav" 0).2.videos_updated = 1 := by decide

/-- C8 (witness): the second-run theorem instantiated on a concrete
one-item snapshot over the empty catalog. -/
theorem C8_second_run_witness :
    projOf (processCollectionData (fun _ _ => none)
        (processCollectionData (fun _ _ => none) {} {} [c8Item] 1 "fav" 0).1
        (processCollectionData (fun _ _ => none) {} {} [c8Item] 1 "fav" 0).2
        [c8Item] 1 "fav" 0).1
      = projOf (processCollectionData (fun _ _ => none) {} {} [c8Item] 1 "fav" 0).1 ∧
    bvidsOf (processCollectionData (fun _ _ => none)
        (processCollectionData (fun _ _ => none) {} {} [c8Item] 1 "fav" 0).1
        (processCollectionData (fun _ _ => none) {} {} [c8Item] 1 "fav" 0).2
        [c8Item] 1 "fav" 0).1
      = bvidsOf (processCollectionData (fun _ _ => none) {} {} [c8Item] 1 "fav" 0).1 ∧
    keysOf (processCollectionData (fun _ _ => none)
        (processCollectionData (fun _ _ => none) {} {} [c8Item] 1 "fav" 0).1
        (processCollectionData (fun _ _ => none) {} {} [c8Item] 1 "fav" 0).2
        [c8Item] 1 "fav" 0).1
      = keysOf (processCollectionData (fun _ _ => none) {} {} [c8Item] 1 "fav" 0).1 ∧
    (processCollectionData (fun _ _ => none)
        (processCollectionData (fun _ _ => none) {} {} [c8Item] 1 "fav" 0).1
        (processCollectionData (fun _ _ => none) {} {} [c8Item] 1 "fav" 0).2
        [c8Item] 1 "fav" 0).2.videos_added
      = (processCollectionData (fun _ _ => none) {} {} [c8Item] 1 "fav" 0).2.videos_added ∧
    (processCollectionData (fun _ _ => none)
        (processCollectionData (fun _ _ => none) {} {} [c8Item] 1 "fav" 0).1
        (processCollectionData (fun _ _ => none) {} {} [c8Item] 1 "fav" 0).2
        [c8Item] 1 "fav" 0).2.videos_deleted
      = (processCollectionData (fun _ _ => none) {} {} [c8Item] 1 "fav" 0).2.videos_deleted ∧
    (processCollectionData (fun _ _ => none)
        (processCollectionData (fun _ _ => none) {} {} [c8Item] 1 "fav" 0).1
        (processCollectionData (fun _ _ => none) {} {} [c8Item] 1 "fav" 0).2
        [c8Item] 1 "fav" 0).2.videos_restored
      = (processCollectionData (fun _ _ => none) {} {} [c8Item] 1 "fav" 0).2.videos_restored ∧
    (processCollectionData (fun _ _ => none)
        (processCollectionData (fun _ _ => none) {} {} [c8Item] 1 "fav" 0).1
        (processCollectionData (fun _ _ => none) {} {} [c8Item] 1 "fav" 0).2
        [c8Item] 1 "fav" 0).2.videos_updated
      = (processCollectionData (fun _ _ => none) {} {} [c8Item] 1 "fav" 0).2.videos_updated
          + [c8Item].length :=
  C8_second_run (fun _ _ => none) {} {} [c8Item] 1 "fav" 0
    (by decide) (by decide) (by unfold FKOk; decide)
